import Mathlib

/-!
# EMQX operator, `controllers/apps/v1beta4/api.go`

A shallow embedding of the administrative-API bridge of the EMQX operator
(`requestAPI`, `getBootstrapUser`, `getListenerPortsByAPI`,
`startEvacuateNodeByAPI`, `loadPluginByAPI`) together with theorems about it.

Conventions of the embedding.

* A Go `string` is a finite sequence of code units; it is modelled as `List Char`.
  Every string operation used by the source (`strings.Split` on a newline,
  `strings.Index` of a colon, slicing at such an index, the two regular
  expressions) only ever compares against ASCII code units, so on UTF-8 text the
  positions found are the same whether the text is read by bytes or by characters.
* Go `int` is the 64-bit signed integer; values are `Int`, and the places where the
  width matters (`strconv.Atoi` clamping, the `int32` conversions) wrap or clamp
  explicitly.
* A Go `(value, error)` result of a collaborator is an `Except`.
* Functions of the package that live in other files (`getInClusterStatefulSets`,
  `getAllStatefulSet`, `getPodMap`, `getEmqxNodeName`), the Kubernetes client, the
  HTTP client and the constants `defUsername` and `EmqxContainerName` are fields of
  `Cluster`, so that every theorem holds for all of their possible behaviours.
* An executed function returns an `Outcome`: the HTTP calls it issued, in order, and
  either its Go return value or the fact that it stopped with a run-time panic.
-/

namespace EmqxOperator

/-! ## Strings -/

/-- Go `string`, as the list of its code units. -/
abbrev GoString := List Char

/-- Go `strings.Index(s, string(c))` for a one-unit separator: the position of the first
occurrence of `c` in `s`, or `-1`. -/
def Index : GoString → Char → Int
  | [], _ => -1
  | x :: xs, c => if x = c then 0 else if Index xs c < 0 then -1 else Index xs c + 1

/-- Go `strings.LastIndexByte(s, c)`: the position of the last occurrence, or `-1`. -/
def LastIndexByte : GoString → Char → Int
  | [], _ => -1
  | x :: xs, c =>
    if 0 ≤ LastIndexByte xs c then LastIndexByte xs c + 1 else if x = c then 0 else -1

/-- Go slice expression `s[lo:hi]` for in-range bounds. -/
def slice (s : GoString) (lo hi : Nat) : GoString := (s.take hi).drop lo

/-- Go `strings.Split(s, string(sep))` for a one-unit separator. The result is never
empty: splitting the empty string gives one empty piece. -/
def Split (sep : Char) : GoString → List GoString
  | [] => [[]]
  | c :: cs =>
    if c = sep then [] :: Split sep cs
    else
      match Split sep cs with
      | [] => [[c]]
      | piece :: pieces => (c :: piece) :: pieces

/-- Go `strings.ReplaceAll(s, string(old), string(new))` for one-unit arguments. -/
def ReplaceAll (s : GoString) (old new : Char) : GoString :=
  s.map (fun c => if c = old then new else c)

/-- `strings.HasPrefix(s, p)`. -/
def HasPrefix : GoString → GoString → Bool
  | _, [] => true
  | [], _ :: _ => false
  | x :: xs, p :: ps => x = p && HasPrefix xs ps

/-- `strings.Contains(s, sub)`: some position of `s` starts with `sub`. -/
def Contains : GoString → GoString → Bool
  | [], sub => HasPrefix [] sub
  | x :: xs, sub => HasPrefix (x :: xs) sub || Contains xs sub

/-! ## Errors and outcomes -/

/-- Go `error` values that the file produces or passes on. -/
inductive GoError where
  /-- The sentinel `innerErr.ErrPodNotReady`. -/
  | ErrPodNotReady
  /-- A fresh error made by `emperror.Errorf` or `emperror.New` with this message. -/
  | Errorf (msg : GoString)
  /-- The result of `emperror.Wrap(cause, msg)`. -/
  | Wrap (cause : GoError) (msg : GoString)
  /-- An error reported by a collaborator (Kubernetes client, HTTP transport, JSON). -/
  | External (code : Nat)
  deriving DecidableEq, Repr

/-! ## Kubernetes objects -/

/-- The fields of `corev1.ContainerStatus` that are read. -/
structure ContainerStatus where
  Name : GoString
  Ready : Bool
  deriving DecidableEq, Repr

/-- The fields of `corev1.Pod` that are read, with the pod name as identity. -/
structure Pod where
  Name : GoString
  ContainerStatuses : List ContainerStatus
  deriving DecidableEq, Repr

/-- The fields of `appsv1.StatefulSet` that are read (a pod group). -/
structure StatefulSet where
  UID : GoString
  Name : GoString
  deriving DecidableEq, Repr

/-- The `corev1.Secret` data map, `map[string][]byte`. -/
structure Secret where
  Data : GoString → Option GoString

/-- One entry of the observed node list, `appsv1beta4.EmqxNode`. -/
structure EmqxNode where
  Node : GoString
  NodeStatus : GoString
  deriving DecidableEq, Repr

/-- The `EvacuationStrategy` of an enterprise instance. The three fields are Go signed
integers (the source compares `WaitTakeover > 0`). -/
structure EvacuationStrategy where
  WaitTakeover : Int
  ConnEvictRate : Int
  SessEvictRate : Int
  deriving DecidableEq, Repr

/-- What both implementations of the `appsv1beta4.Emqx` interface carry: identity and the
observed status. `EmqxNodes = none` is the Go `nil` slice. -/
structure EmqxObject where
  Namespace : GoString
  Name : GoString
  EmqxNodes : Option (List EmqxNode)
  deriving DecidableEq, Repr

/-- The interface `appsv1beta4.Emqx` with its two implementations, `*EmqxBroker` and
`*EmqxEnterprise`; only the latter has a blue-green update with an evacuation strategy. -/
inductive Emqx where
  | EmqxBroker (obj : EmqxObject)
  | EmqxEnterprise (obj : EmqxObject) (strategy : EvacuationStrategy)
  deriving DecidableEq, Repr

/-- The common object of an instance. -/
def Emqx.obj : Emqx → EmqxObject
  | .EmqxBroker o => o
  | .EmqxEnterprise o _ => o

/-- Go `instance.GetNamespace()`. -/
def Emqx.GetNamespace (i : Emqx) : GoString := i.obj.Namespace

/-- Go `instance.GetName()`. -/
def Emqx.GetName (i : Emqx) : GoString := i.obj.Name

/-- Go `instance.GetStatus().GetEmqxNodes()`. -/
def Emqx.GetEmqxNodes (i : Emqx) : Option (List EmqxNode) := i.obj.EmqxNodes

/-! ## HTTP -/

/-- The fields of `http.Response` that are read. -/
structure Response where
  StatusCode : Int
  Status : GoString
  deriving DecidableEq, Repr

/-- One call of `APIClient.RequestAPI(pod, username, password, port, method, path, body)`. -/
structure HttpCall where
  pod : Pod
  username : GoString
  password : GoString
  port : GoString
  method : GoString
  path : GoString
  body : GoString
  deriving DecidableEq, Repr

/-- The Go triple `(*http.Response, []byte, error)`; `resp = none` is the `nil` pointer and
`err = none` the `nil` error. -/
structure HttpReply where
  resp : Option Response
  body : GoString
  err : Option GoError
  deriving DecidableEq, Repr

/-- The triple `nil, nil, err`. -/
def HttpReply.failure (e : GoError) : HttpReply := ⟨none, [], some e⟩

/-- How a call of one of the functions ends: with the HTTP calls it issued and its return
value, or with a run-time panic after the HTTP calls it issued. -/
inductive Outcome (α : Type) where
  | returned (calls : List HttpCall) (value : α)
  | panicked (calls : List HttpCall)
  deriving DecidableEq, Repr

/-- The HTTP calls issued during the execution. -/
def Outcome.calls {α : Type} : Outcome α → List HttpCall
  | .returned cs _ => cs
  | .panicked cs => cs

/-! ## Listeners, service ports and JSON bodies -/

/-- The local type `emqxListener` of `getListenerPortsByAPI`. -/
structure emqxListener where
  Protocol : GoString
  ListenOn : GoString
  deriving DecidableEq, Repr

/-- The local type `emqxListeners` of `getListenerPortsByAPI`: what one node reports. -/
structure emqxListeners where
  Node : GoString
  Listeners : List emqxListener
  deriving DecidableEq, Repr

/-- Kubernetes `corev1.Protocol`, restricted to the two values the file assigns. -/
inductive Protocol where
  | ProtocolTCP
  | ProtocolUDP
  deriving DecidableEq, Repr

/-- Kubernetes `intstr.IntOrString`. -/
inductive IntOrString where
  | FromInt (IntVal : Int)
  | FromString (StrVal : GoString)
  deriving DecidableEq, Repr

/-- The fields of `corev1.ServicePort` that the file sets. -/
structure ServicePort where
  Name : GoString
  Protocol : Protocol
  Port : Int
  TargetPort : IntOrString
  deriving DecidableEq, Repr

/-- The values stored in the request body `map[string]interface{}`. -/
inductive JsonValue where
  | number (n : Int)
  | strings (items : List GoString)
  deriving DecidableEq, Repr

/-- A Go `map[string]interface{}` as an association list with at most one entry per key. -/
abbrev JsonObject := List (GoString × JsonValue)

/-- Go map read `m[key]` together with its presence flag. -/
def JsonObject.get (m : JsonObject) (key : GoString) : Option JsonValue :=
  (m.find? (fun kv => kv.1 = key)).map (fun kv => kv.2)

/-- Go map assignment `m[key] = value`. -/
def JsonObject.set (m : JsonObject) (key : GoString) (value : JsonValue) : JsonObject :=
  (key, value) :: m.filter (fun kv => kv.1 ≠ key)

/-- Everything the file obtains from outside itself. -/
structure Cluster where
  /-- Kubernetes `client.Get` of a secret by namespace and name. -/
  getSecret : GoString → GoString → Except GoError Secret
  /-- Package function `getInClusterStatefulSets(client, instance)`. -/
  getInClusterStatefulSets : Emqx → Except GoError (List StatefulSet)
  /-- Package function `getAllStatefulSet(client, instance)`. -/
  getAllStatefulSet : Emqx → Except GoError (List StatefulSet)
  /-- Package function `getPodMap(client, instance, sts)`; the map is total, an absent UID
  giving the `nil` pod slice. -/
  getPodMap : Emqx → List StatefulSet → Except GoError (GoString → List Pod)
  /-- Package function `getEmqxNodeName(instance, pod)`. -/
  getEmqxNodeName : Emqx → Pod → GoString
  /-- The HTTP client, `APIClient.RequestAPI`. -/
  RequestAPI : HttpCall → HttpReply
  /-- Package constant `defUsername`. -/
  defUsername : GoString
  /-- Package constant `EmqxContainerName`. -/
  EmqxContainerName : GoString
  /-- Library step `json.Unmarshal([]byte(gjson.GetBytes(body, "data").Raw), &listenerList)`
  of `getListenerPortsByAPI`, from the response body to the per-node listener lists. -/
  decodeListeners : GoString → Except GoError (List emqxListeners)
  /-- Library function `json.Marshal` on the evacuation request body. -/
  jsonMarshal : JsonObject → Except GoError GoString

/-! ## `getBootstrapUser` and `newRequestAPI` -/

/-- The loop `for _, user := range users` of `getBootstrapUser`: the first entry with
`index > 0 && user[:index] == defUsername` gives `(user[:index], user[index+1:])`. -/
def getBootstrapUser.scan (defUsername : GoString) : List GoString → Option (GoString × GoString)
  | [] => none
  | user :: users =>
    if 0 < Index user ':' ∧ slice user 0 (Index user ':').toNat = defUsername then
      some (slice user 0 (Index user ':').toNat, user.drop ((Index user ':').toNat + 1))
    else getBootstrapUser.scan defUsername users

/-- Go `getBootstrapUser(client, instance)`, returning `(username, password)` or the error. -/
def getBootstrapUser (c : Cluster) (inst : Emqx) : Except GoError (GoString × GoString) :=
  match c.getSecret inst.GetNamespace (inst.GetName ++ "-bootstrap-user".toList) with
  | .error e => .error (.Wrap e "get secret failed".toList)
  | .ok bootstrapUser =>
    match bootstrapUser.Data "bootstrap_user".toList with
    | some data =>
      match getBootstrapUser.scan c.defUsername (Split '\n' data) with
      | some found => .ok found
      | none => .error (.Errorf "the secret does not contain the bootstrap_user".toList)
    | none => .error (.Errorf "the secret does not contain the bootstrap_user".toList)

/-- The Go struct `requestAPI` without its two embedded clients, which are in `Cluster`. -/
structure RequestAPIFields where
  Username : GoString
  Password : GoString
  Port : GoString
  deriving DecidableEq, Repr

/-- Go `newRequestAPI(client, apiClient, instance)`. -/
def newRequestAPI (c : Cluster) (inst : Emqx) : Except GoError RequestAPIFields :=
  match getBootstrapUser c inst with
  | .error e => .error e
  | .ok (username, password) => .ok ⟨username, password, "8081".toList⟩

/-! ## `requestAPI` -/

/-- The inner loop of `requestAPI` over `pod.Status.ContainerStatuses`: whether it reaches
the `return` (a status named `EmqxContainerName` that is ready). -/
def requestAPI.scanContainers (emqxContainerName : GoString) : List ContainerStatus → Bool
  | [] => false
  | container :: rest =>
    if container.Name = emqxContainerName then
      if container.Ready then true else requestAPI.scanContainers emqxContainerName rest
    else requestAPI.scanContainers emqxContainerName rest

/-- The outer loop of `requestAPI` over the pods of the selected pod group, ending in
`return nil, nil, innerErr.ErrPodNotReady` when no pod qualifies. -/
def requestAPI.scanPods (c : Cluster) (r : RequestAPIFields) (method path body : GoString) :
    List Pod → Outcome HttpReply
  | [] => .returned [] (.failure .ErrPodNotReady)
  | pod :: pods =>
    if requestAPI.scanContainers c.EmqxContainerName pod.ContainerStatuses then
      .returned [⟨pod, r.Username, r.Password, r.Port, method, path, body⟩]
        (c.RequestAPI ⟨pod, r.Username, r.Password, r.Port, method, path, body⟩)
    else requestAPI.scanPods c r method path body pods

/-- The first four lines of `requestAPI`: the in-cluster enumeration, replaced (value and
error alike) by the enumeration over the whole history when the path is `api/v4/nodes` and
no node list has been observed. -/
def requestAPI.enumerate (c : Cluster) (inst : Emqx) (path : GoString) :
    Except GoError (List StatefulSet) :=
  if path = "api/v4/nodes".toList ∧ inst.GetEmqxNodes = none then c.getAllStatefulSet inst
  else c.getInClusterStatefulSets inst

/-- Go `(r *requestAPI) requestAPI(instance, method, path, body)`. Indexing
`list[len(list)-1]` on an empty list is a run-time panic. -/
def requestAPI (c : Cluster) (r : RequestAPIFields) (inst : Emqx) (method path body : GoString) :
    Outcome HttpReply :=
  match requestAPI.enumerate c inst path with
  | .error err => .returned [] (.failure err)
  | .ok list =>
    match list.getLast? with
    | none => .panicked []
    | some sts =>
      match c.getPodMap inst [sts] with
      | .error err => .returned [] (.failure err)
      | .ok podMap =>
        if (podMap sts.UID).length = 0 then .returned [] (.failure .ErrPodNotReady)
        else requestAPI.scanPods c r method path body (podMap sts.UID)

/-! ## Library functions used by the port derivation -/

/-- The two kinds of `strconv.NumError`. -/
inductive NumError where
  | ErrSyntax
  | ErrRange
  deriving DecidableEq, Repr

/-- Whether a code unit is one of `0` to `9`. -/
def isDigit (c : Char) : Bool := 48 ≤ c.toNat && c.toNat ≤ 57

/-- The digit loop of the fast path of `strconv.Atoi`: any unit other than a digit is a
syntax error, and the value is accumulated without a range check. -/
def Atoi.fast : GoString → Nat → Option Nat
  | [], n => some n
  | ch :: rest, n => if isDigit ch then Atoi.fast rest (n * 10 + (ch.toNat - 48)) else none

/-- The digit loop of `strconv.ParseUint(s, 10, 64)`: a unit other than a digit is a syntax
error with value 0; a digit that would take the value above `2^64 - 1` ends the loop at
once with that maximum and a range error. -/
def ParseUint.loop : GoString → Nat → Nat × Option NumError
  | [], n => (n, none)
  | c :: rest, n =>
    if isDigit c then
      if (2 ^ 64 - 1) / 10 + 1 ≤ n then (2 ^ 64 - 1, some .ErrRange)
      else if 2 ^ 64 - 1 < n * 10 + (c.toNat - 48) then (2 ^ 64 - 1, some .ErrRange)
      else ParseUint.loop rest (n * 10 + (c.toNat - 48))
    else (0, some .ErrSyntax)

/-- Go `strconv.ParseUint(s, 10, 64)`. -/
def ParseUint (s : GoString) : Nat × Option NumError :=
  if s = [] then (0, some .ErrSyntax) else ParseUint.loop s 0

/-- Go `strconv.ParseInt(s, 10, 0)` with 64-bit `int`: an optional sign, then
`ParseUint`; out-of-range magnitudes are clamped to the nearest `int64` and reported. -/
def ParseInt (s : GoString) : Int × Option NumError :=
  if s = [] then (0, some .ErrSyntax)
  else
    match ParseUint (if s.head? = some '+' ∨ s.head? = some '-' then s.drop 1 else s) with
    | (_, some .ErrSyntax) => (0, some .ErrSyntax)
    | (un, _) =>
      if s.head? ≠ some '-' ∧ 2 ^ 63 ≤ un then (2 ^ 63 - 1, some .ErrRange)
      else if s.head? = some '-' ∧ 2 ^ 63 < un then (-(2 ^ 63), some .ErrRange)
      else if s.head? = some '-' then (-(un : Int), none)
      else ((un : Int), none)

/-- Go `strconv.Atoi(s)` with 64-bit `int`: the fast path for 1 to 18 units, `ParseInt`
otherwise. -/
def Atoi (s : GoString) : Int × Option NumError :=
  if 0 < s.length ∧ s.length < 19 then
    if (if s.head? = some '-' ∨ s.head? = some '+' then s.drop 1 else s) = [] then
      (0, some .ErrSyntax)
    else
      match Atoi.fast (if s.head? = some '-' ∨ s.head? = some '+' then s.drop 1 else s) 0 with
      | none => (0, some .ErrSyntax)
      | some n => if s.head? = some '-' then (-(n : Int), none) else ((n : Int), none)
  else ParseInt s

/-- Go conversion `int32(x)` of an `int`: the low 32 bits, read as a signed number. -/
def toInt32 (x : Int) : Int := (x + 2 ^ 31) % 2 ^ 32 - 2 ^ 31

/-- Kubernetes `intstr.FromInt(val)`, which stores `int32(val)`. -/
def FromInt (val : Int) : IntOrString := .FromInt (toInt32 val)

/-- The reasons for which `net.SplitHostPort` fails. -/
inductive AddrError where
  | missingPort
  | tooManyColons
  | missingCloseBracket
  | unexpectedOpenBracket
  | unexpectedCloseBracket
  deriving DecidableEq, Repr

/-- The first half of `net.SplitHostPort`, given the position `i` of the last colon: the
host and the two offsets `j`, `k` from which stray brackets are searched. -/
def SplitHostPort.host (hostport : GoString) (i : Int) : Except AddrError (GoString × Nat × Nat) :=
  if hostport.head? = some '[' then
    if Index hostport ']' < 0 then .error .missingCloseBracket
    else if Index hostport ']' + 1 = hostport.length then .error .missingPort
    else if Index hostport ']' + 1 = i then
      .ok (slice hostport 1 (Index hostport ']').toNat, 1, (Index hostport ']').toNat + 1)
    else if hostport.get? ((Index hostport ']').toNat + 1) = some ':' then .error .tooManyColons
    else .error .missingPort
  else if 0 ≤ Index (slice hostport 0 i.toNat) ':' then .error .tooManyColons
  else .ok (slice hostport 0 i.toNat, 0, 0)

/-- Go `net.SplitHostPort(hostport)`: the text after the last colon is the port; the host
is the text before it, which must not contain a colon unless it is in square brackets. -/
def SplitHostPort (hostport : GoString) : Except AddrError (GoString × GoString) :=
  if LastIndexByte hostport ':' < 0 then .error .missingPort
  else
    match SplitHostPort.host hostport (LastIndexByte hostport ':') with
    | .error e => .error e
    | .ok (host, j, k) =>
      if 0 ≤ Index (hostport.drop j) '[' then .error .unexpectedOpenBracket
      else if 0 ≤ Index (hostport.drop k) ']' then .error .unexpectedCloseBracket
      else .ok (host, hostport.drop ((LastIndexByte hostport ':').toNat + 1))

/-- Go `regexp.MustCompile(".*(udp|dtls|sn).*").MatchString(s)`. `MatchString` looks for a
match anywhere in `s` and both `.*` may match nothing, so the pattern matches exactly when
one of the three literal words occurs in `s`; the comparison is by code unit, the pattern
carrying no case-folding flag. -/
def matchUDP (s : GoString) : Bool :=
  Contains s "udp".toList || Contains s "dtls".toList || Contains s "sn".toList

/-- The scan behind `stripColonDigits`; `skipping` says that the previous unit was removed
as part of a match, so that further digits extend that match. -/
def stripColonDigits.go : Bool → GoString → GoString
  | _, [] => []
  | skipping, c :: rest =>
    if skipping && isDigit c then stripColonDigits.go true rest
    else if c = ':' && (rest.head?.map isDigit).getD false then stripColonDigits.go true rest
    else c :: stripColonDigits.go false rest

/-- Go ``regexp.MustCompile(`:[\d]+`).ReplaceAllString(s, "")``: from left to right, every
colon directly followed by a digit is removed together with the longest run of digits
after it. -/
def stripColonDigits (s : GoString) : GoString := stripColonDigits.go false s

/-! ## `getListenerPortsByAPI` -/

/-- Go map `map[string]struct{}` used as a set of keys: `hSection[key] = struct{}{}`. -/
def hSection.insert (h : List GoString) (key : GoString) : List GoString :=
  if key ∈ h then h else key :: h

/-- Go `delete(hSection, key)`. -/
def hSection.delete (h : List GoString) (key : GoString) : List GoString :=
  h.filter (fun k => k ≠ key)

/-- The second loop of the closure `intersection`, carrying the key set and `ans`. -/
def intersection.collect :
    List emqxListener → List GoString → List emqxListener → List emqxListener
  | [], _, ans => ans
  | listener :: rest, h, ans =>
    if listener.ListenOn ∈ h then
      intersection.collect rest (hSection.delete h listener.ListenOn) (ans ++ [listener])
    else intersection.collect rest h ans

/-- The closure `intersection` of `getListenerPortsByAPI`: the keys of `listeners1` are put
into a set, then `listeners2` is scanned, an entry being kept, and its key deleted from the
set, when its key is in the set. -/
def intersection (listeners1 listeners2 : List emqxListener) : List emqxListener :=
  intersection.collect listeners2
    (listeners1.foldl (fun h listener => hSection.insert h listener.ListenOn) []) []

/-- The loop `for i := 0; i < len(listenerList)-1; i++` of `getListenerPortsByAPI`: at each
index the variable `listeners` is assigned
`intersection(listenerList[i].Listeners, listenerList[i+1].Listeners)`. -/
def getListenerPortsByAPI.loop : List emqxListeners → List emqxListener → List emqxListener
  | a :: b :: rest, _ =>
    getListenerPortsByAPI.loop (b :: rest) (intersection a.Listeners b.Listeners)
  | _, listeners => listeners

/-- The statement that computes `listeners` from `listenerList` in `getListenerPortsByAPI`;
the variable starts as the `nil` slice. -/
def getListenerPortsByAPI.reconcile (listenerList : List emqxListeners) : List emqxListener :=
  match listenerList with
  | [only] => only.Listeners
  | _ => getListenerPortsByAPI.loop listenerList []

/-- The text `strPort` that the body of the ports loop derives from `l.ListenOn`. -/
def getListenerPortsByAPI.strPort (l : emqxListener) : GoString :=
  if Contains l.ListenOn ":".toList then
    match SplitHostPort l.ListenOn with
    | .ok (_, port) => port
    | .error _ => l.ListenOn
  else l.ListenOn

/-- One iteration of the ports loop of `getListenerPortsByAPI`: the `corev1.ServicePort`
appended for the listener `l`. -/
def getListenerPortsByAPI.servicePort (l : emqxListener) : ServicePort :=
  { Name := ReplaceAll (stripColonDigits l.Protocol) ':' '-' ++ "-".toList ++
      getListenerPortsByAPI.strPort l
    Protocol := if matchUDP l.Protocol then .ProtocolUDP else .ProtocolTCP
    Port := toInt32 (Atoi (getListenerPortsByAPI.strPort l)).1
    TargetPort := FromInt (Atoi (getListenerPortsByAPI.strPort l)).1 }

/-- The ports loop of `getListenerPortsByAPI`, appending one entry per listener. -/
def getListenerPortsByAPI.ports : List emqxListener → List ServicePort → List ServicePort
  | [], ports => ports
  | l :: rest, ports =>
    getListenerPortsByAPI.ports rest (ports ++ [getListenerPortsByAPI.servicePort l])

/-- Go `(r *requestAPI) getListenerPortsByAPI(instance)`. -/
def getListenerPortsByAPI (c : Cluster) (r : RequestAPIFields) (inst : Emqx) :
    Outcome (Except GoError (List ServicePort)) :=
  match requestAPI c r inst "GET".toList "api/v4/listeners".toList [] with
  | .panicked calls => .panicked calls
  | .returned calls reply =>
    match reply.err with
    | some err => .returned calls (.error err)
    | none =>
      match c.decodeListeners reply.body with
      | .error err => .returned calls (.error (.Wrap err "failed to unmarshal node statuses".toList))
      | .ok listenerList =>
        .returned calls
          (.ok (getListenerPortsByAPI.ports (getListenerPortsByAPI.reconcile listenerList) []))

/-! ## `startEvacuateNodeByAPI` -/

/-- The loop of `startEvacuateNodeByAPI` that fills `migrateTo`. -/
def startEvacuateNodeByAPI.migrateTo (c : Cluster) (inst : Emqx) :
    List Pod → List GoString → List GoString
  | [], migrateTo => migrateTo
  | pod :: pods, migrateTo =>
    startEvacuateNodeByAPI.migrateTo c inst pods (migrateTo ++ [c.getEmqxNodeName inst pod])

/-- The request body that `startEvacuateNodeByAPI` builds before marshalling it. -/
def startEvacuateNodeByAPI.body (c : Cluster) (inst : Emqx) (strategy : EvacuationStrategy)
    (migrateToPods : List Pod) : JsonObject :=
  if 0 < strategy.WaitTakeover then
    JsonObject.set
      [("conn_evict_rate".toList, .number strategy.ConnEvictRate),
       ("sess_evict_rate".toList, .number strategy.SessEvictRate),
       ("migrate_to".toList, .strings (startEvacuateNodeByAPI.migrateTo c inst migrateToPods []))]
      "wait_takeover".toList (.number strategy.WaitTakeover)
  else
    [("conn_evict_rate".toList, .number strategy.ConnEvictRate),
     ("sess_evict_rate".toList, .number strategy.SessEvictRate),
     ("migrate_to".toList, .strings (startEvacuateNodeByAPI.migrateTo c inst migrateToPods []))]

/-- Go `(r *requestAPI) startEvacuateNodeByAPI(instance, migrateToPods, nodeName)`; the
value is the returned `error`, `none` for `nil`. -/
def startEvacuateNodeByAPI (c : Cluster) (r : RequestAPIFields) (inst : Emqx)
    (migrateToPods : List Pod) (nodeName : GoString) : Outcome (Option GoError) :=
  match inst with
  | .EmqxBroker _ =>
    .returned [] (some (.Errorf "failed to evacuate node, only support emqx enterprise".toList))
  | .EmqxEnterprise _ strategy =>
    match c.jsonMarshal (startEvacuateNodeByAPI.body c inst strategy migrateToPods) with
    | .error err => .returned [] (some (.Wrap err "marshal body failed".toList))
    | .ok b =>
      match requestAPI c r inst "POST".toList
          ("api/v4/load_rebalance/".toList ++ nodeName ++ "/evacuation/start".toList) b with
      | .panicked calls => .panicked calls
      | .returned calls reply => .returned calls reply.err

/-! ## `loadPluginByAPI` -/

/-- Go `(r *requestAPI) loadPluginByAPI(emqx, nodeName, pluginName, reloadOrUnload)`; the
value is the returned `error`. Reading `resp.StatusCode` through a `nil` response is a
run-time panic. -/
def loadPluginByAPI (c : Cluster) (r : RequestAPIFields) (emqx : Emqx)
    (nodeName pluginName reloadOrUnload : GoString) : Outcome (Option GoError) :=
  match requestAPI c r emqx "PUT".toList
      ("api/v4/nodes/".toList ++ nodeName ++ "/plugins/".toList ++ pluginName ++ "/".toList ++
        reloadOrUnload) [] with
  | .panicked calls => .panicked calls
  | .returned calls reply =>
    match reply.err with
    | some err => .returned calls (some err)
    | none =>
      match reply.resp with
      | none => .panicked calls
      | some resp =>
        if resp.StatusCode ≠ 200 then
          .returned calls (some (.Errorf ("request api failed: ".toList ++ resp.Status)))
        else .returned calls none

/-! ## Vocabulary of the specification -/

/-- The key of a credential line: the text before its first colon, when it has a colon. -/
def lineKey (line : GoString) : Option GoString :=
  if ':' ∈ line then some (line.takeWhile (fun ch => ch ≠ ':')) else none

/-- The value of a credential line: the whole text after its first colon. -/
def lineValue (line : GoString) : GoString := (line.dropWhile (fun ch => ch ≠ ':')).drop 1

/-- Whether a pod has a container status named `name` that reports ready. -/
def podReady (name : GoString) (pod : Pod) : Bool :=
  pod.ContainerStatuses.any (fun status => status.Name = name && status.Ready)

/-- The first pod, in enumeration order, whose container `name` reports ready. -/
def firstReadyPod (name : GoString) (pods : List Pod) : Option Pod :=
  pods.find? (podReady name)

/-- The decimal digit of value `d`, for `d < 10`. -/
def digitChar (d : Nat) : Char := Char.ofNat (48 + d)

/-- The canonical decimal numeral of `n`: most significant digit first, no leading zero. -/
def decimal (n : Nat) : GoString :=
  if n = 0 then ['0'] else (Nat.digits 10 n).reverse.map digitChar

/-- The text `bind` is the port number `p` alone, or `host:p` in the host-and-port syntax:
a host name or IPv4 address (no colon, no square bracket) before the colon, or an IPv6
address written in square brackets. -/
def isPortOrHostPort (bind : GoString) (p : Nat) : Prop :=
  bind = decimal p ∨
  (∃ host : GoString, ':' ∉ host ∧ '[' ∉ host ∧ ']' ∉ host ∧ bind = host ++ ':' :: decimal p) ∨
  (∃ addr : GoString, '[' ∉ addr ∧ ']' ∉ addr ∧ bind = '[' :: addr ++ ']' :: ':' :: decimal p)

/-- ASCII lower-casing of one code unit. -/
def lowerASCII (c : Char) : Char :=
  if 65 ≤ c.toNat ∧ c.toNat ≤ 90 then Char.ofNat (c.toNat + 32) else c

/-- Case-insensitive occurrence of the lower-case word `word` in `s`. -/
def containsFold (s word : GoString) : Bool := Contains (s.map lowerASCII) word

/-- Whether an instance is of the enterprise flavor. -/
def Emqx.isEnterprise : Emqx → Bool
  | .EmqxBroker _ => false
  | .EmqxEnterprise _ _ => true

/-! ## Sample data -/

/-- A pod with one `emqx` container status and one sidecar. -/
def samplePod (name : GoString) (ready : Bool) : Pod :=
  ⟨name, [⟨"reloader".toList, true⟩, ⟨"emqx".toList, ready⟩]⟩

/-- The pod group of the outgoing revision. -/
def sampleOld : StatefulSet := ⟨"uid-1".toList, "emqx-ee-6f7b".toList⟩

/-- The pod group of the incoming revision. -/
def sampleNew : StatefulSet := ⟨"uid-2".toList, "emqx-ee-85c9".toList⟩

/-- Three listeners with three different binds. -/
def listenerA : emqxListener := ⟨"mqtt:tcp".toList, "0.0.0.0:1883".toList⟩

/-- The second sample listener. -/
def listenerB : emqxListener := ⟨"mqtt:ssl".toList, "0.0.0.0:8883".toList⟩

/-- The third sample listener. -/
def listenerC : emqxListener := ⟨"mqtt:ws".toList, "0.0.0.0:8083".toList⟩

/-- The credential blob of the sample secret. -/
def sampleBlob : GoString :=
  "admin:public\nemqx_operator_controller:pa:ss:word\nemqx_operator_controller:later".toList

/-- A cluster in mid-rollout: two pod groups, the newer one with an unready pod before a
ready one; every HTTP call is answered with status 204. -/
def sampleCluster : Cluster where
  getSecret := fun _ _ =>
    .ok ⟨fun key => if key = "bootstrap_user".toList then some sampleBlob else none⟩
  getInClusterStatefulSets := fun _ => .ok [sampleOld, sampleNew]
  getAllStatefulSet := fun _ => .ok [sampleOld, sampleNew]
  getPodMap := fun _ _ =>
    .ok (fun uid =>
      if uid = "uid-2".toList then
        [samplePod "emqx-ee-85c9-0".toList false, samplePod "emqx-ee-85c9-1".toList true,
         samplePod "emqx-ee-85c9-2".toList true]
      else if uid = "uid-1".toList then [samplePod "emqx-ee-6f7b-0".toList true]
      else [])
  getEmqxNodeName := fun _ pod => "emqx@".toList ++ pod.Name
  RequestAPI := fun _ => ⟨some ⟨204, "204 No Content".toList⟩, [], none⟩
  defUsername := "emqx_operator_controller".toList
  EmqxContainerName := "emqx".toList
  decodeListeners := fun _ => .ok [⟨"emqx@10.0.0.1".toList, [listenerA, listenerB, listenerA]⟩]
  jsonMarshal := fun _ => .ok []

/-- The same cluster with a secret whose blob has no entry for the bootstrap user. -/
def sampleClusterNoUser : Cluster :=
  { sampleCluster with
    getSecret := fun _ _ =>
      .ok ⟨fun key =>
        if key = "bootstrap_user".toList then
          some "admin:public\n:secret\nemqx_operator_controller".toList
        else none⟩ }

/-- The client fields that `newRequestAPI` produces on the sample cluster. -/
def sampleFields : RequestAPIFields :=
  ⟨"emqx_operator_controller".toList, "pa:ss:word".toList, "8081".toList⟩

/-- An open-source broker instance with an observed node list. -/
def sampleBroker : Emqx :=
  .EmqxBroker ⟨"default".toList, "emqx".toList, some []⟩

/-- The HTTP call that the sample cluster receives for a request. -/
def sampleCall (method path : GoString) : HttpCall :=
  ⟨samplePod "emqx-ee-85c9-1".toList true, sampleFields.Username, sampleFields.Password,
    sampleFields.Port, method, path, []⟩

/-! ## Vocabulary of the specification, continued -/

/-- The text without its optional leading sign, as `strconv.Atoi` reads it. -/
def unsignedPart (s : GoString) : GoString :=
  if s.head? = some '-' ∨ s.head? = some '+' then s.drop 1 else s

/-- The text is a decimal integer: an optional sign followed by one or more digits. -/
def isNumeral (s : GoString) : Bool :=
  decide (unsignedPart s ≠ []) && (unsignedPart s).all isDigit

/-- The positional value of a run of digits, most significant first. -/
def decValue (digits : GoString) : Nat :=
  digits.foldl (fun n ch => n * 10 + (ch.toNat - 48)) 0

/-- The digits with which the text starts, after its optional sign. -/
def leadingDigits (s : GoString) : GoString := (unsignedPart s).takeWhile isDigit

/-- A code unit allowed in a DNS label: a lower-case letter, a digit or a hyphen. -/
def isLabelChar (c : Char) : Bool :=
  (97 ≤ c.toNat && c.toNat ≤ 122) || isDigit c || c = '-'

/-- A lower-case letter or a digit. -/
def isLowerAlnum (c : Char) : Bool :=
  (97 ≤ c.toNat && c.toNat ≤ 122) || isDigit c

/-- The Kubernetes service port name rule, a DNS-1123 label: only lower-case alphanumerics
and hyphens, at most 63 units, and a lower-case alphanumeric as first and as last unit (so
the name is not empty). -/
def conformsPortName (name : GoString) : Bool :=
  name.all isLabelChar && decide (name.length ≤ 63) &&
    (name.head?.map isLowerAlnum).getD false && (name.getLast?.map isLowerAlnum).getD false

/-- The scan behind `keyedIntersection`: `seen` holds the bind keys of the entries already
passed. An entry is kept when its bind key is one of `keys` and has not been seen. -/
def keyedIntersection.scan (keys : List GoString) :
    List GoString → List emqxListener → List emqxListener
  | _, [] => []
  | seen, entry :: rest =>
    if entry.ListenOn ∈ keys ∧ entry.ListenOn ∉ seen then
      entry :: keyedIntersection.scan keys (entry.ListenOn :: seen) rest
    else keyedIntersection.scan keys (entry.ListenOn :: seen) rest

/-- The intersection of two listener lists keyed by bind address, stated without reference
to the source: the entries of the second list whose bind key occurs in the first list, each
bind key once, represented by the first entry of the second list that has it, in the order
of the second list. -/
def keyedIntersection (first second : List emqxListener) : List emqxListener :=
  keyedIntersection.scan (first.map (fun entry => entry.ListenOn)) [] second

/-- The two-list intersection of the last two per-node lists, list `n-2` and list `n-1`
of `n`; the empty list when there are fewer than two lists. -/
def lastTwoIntersection (listenerList : List emqxListeners) : List emqxListener :=
  match listenerList.get? (listenerList.length - 2),
      listenerList.get? (listenerList.length - 1) with
  | some previous, some last => keyedIntersection previous.Listeners last.Listeners
  | _, _ => []

/-! ## Sample data, continued -/

/-- The sample cluster when the newest pod group has no pod at all. -/
def sampleClusterNoPods : Cluster :=
  { sampleCluster with getPodMap := fun _ _ => .ok (fun _ => []) }

/-- The sample cluster when the newest pod group has pods, none of them ready. -/
def sampleClusterUnready : Cluster :=
  { sampleCluster with
    getPodMap := fun _ _ =>
      .ok (fun _ =>
        [samplePod "emqx-ee-85c9-0".toList false, samplePod "emqx-ee-85c9-1".toList false]) }

/-- The sample cluster when no pod group is tracked and the enumeration reports no error. -/
def sampleClusterNoGroups : Cluster :=
  { sampleCluster with getInClusterStatefulSets := fun _ => .ok [] }

/-- The sample cluster when only the outgoing pod group is still tracked, the history
holding both. -/
def sampleClusterHistory : Cluster :=
  { sampleCluster with getInClusterStatefulSets := fun _ => .ok [sampleOld] }

/-- An enterprise instance on its first reconcile: no node list observed yet. -/
def sampleEnterprise : Emqx :=
  .EmqxEnterprise ⟨"default".toList, "emqx-ee".toList, none⟩ ⟨30, 5, 10⟩

/-! ## Lemmas on strings -/

/-- Lemma: `Index` is negative exactly when the unit does not occur. -/
theorem Index_neg_iff (s : GoString) (c : Char) : Index s c < 0 ↔ c ∉ s := by
  induction s with
  | nil => simp [Index]
  | cons x xs ih =>
    by_cases hx : x = c
    · simp [Index, hx]
    · have hx' : ¬ c = x := fun h => hx h.symm
      by_cases hi : Index xs c < 0
      · simp [Index, hx, hx', hi, ← ih]
      · have : c ∈ xs := by
          by_contra hc
          exact hi (ih.mpr hc)
        simp only [Index, hx, hi, if_false, List.mem_cons, this, or_true, not_true_eq_false,
          iff_false, not_lt]
        omega

/-- Lemma: `Index` is non-negative exactly when the unit occurs. -/
theorem Index_nonneg_iff (s : GoString) (c : Char) : 0 ≤ Index s c ↔ c ∈ s := by
  have := Index_neg_iff s c
  constructor
  · intro h
    by_contra hc
    have := this.mpr hc
    omega
  · intro h
    by_contra hc
    exact (this.mp (by omega)) h

/-- The first occurrence in `a ++ c :: b` is at `a.length` when `c` is not in `a`. -/
theorem Index_append (a b : GoString) (c : Char) (ha : c ∉ a) :
    Index (a ++ c :: b) c = a.length := by
  induction a with
  | nil => simp [Index]
  | cons x xs ih =>
    have hx : ¬ x = c := fun h => ha (by simp [h])
    have hxs : c ∉ xs := fun h => ha (by simp [h])
    have ih' := ih hxs
    rw [List.cons_append, Index, if_neg hx, ih', List.length_cons]
    have : ¬ ((xs.length : Int) < 0) := by omega
    rw [if_neg this]
    push_cast; ring

/-- Lemma: `LastIndexByte` is non-negative exactly when the unit occurs. -/
theorem LastIndexByte_nonneg_iff (s : GoString) (c : Char) : 0 ≤ LastIndexByte s c ↔ c ∈ s := by
  induction s with
  | nil => simp [LastIndexByte]
  | cons x xs ih =>
    by_cases hi : 0 ≤ LastIndexByte xs c
    · have := ih.mp hi
      simp only [LastIndexByte, hi, if_true, List.mem_cons, this, or_true, iff_true]
      omega
    · have hn : c ∉ xs := fun h => hi (ih.mpr h)
      by_cases hx : x = c
      · simp [LastIndexByte, hi, hx]
      · have hx' : ¬ c = x := fun h => hx h.symm
        simp [LastIndexByte, hi, hx, hx', hn]

/-- The last occurrence in `a ++ c :: b` is at `a.length` when `c` is not in `b`. -/
theorem LastIndexByte_append (a b : GoString) (c : Char) (hb : c ∉ b) :
    LastIndexByte (a ++ c :: b) c = a.length := by
  have hb' : ¬ 0 ≤ LastIndexByte b c := fun h => hb ((LastIndexByte_nonneg_iff b c).mp h)
  induction a with
  | nil => simp [LastIndexByte, hb']
  | cons x xs ih =>
    rw [List.cons_append, LastIndexByte, ih, List.length_cons]
    have : (0 : Int) ≤ (xs.length : Int) := by omega
    rw [if_pos this]
    push_cast; ring

/-- A one-unit word starts `s` exactly when it is the head of `s`. -/
theorem HasPrefix_singleton (s : GoString) (c : Char) :
    HasPrefix s [c] = true ↔ s.head? = some c := by
  cases s with
  | nil => simp [HasPrefix]
  | cons x xs => simp [HasPrefix]

/-- A one-unit word occurs in `s` exactly when the unit is a member of `s`. -/
theorem Contains_singleton (s : GoString) (c : Char) : Contains s [c] = true ↔ c ∈ s := by
  induction s with
  | nil => simp [Contains, HasPrefix]
  | cons x xs ih =>
    simp only [Contains, Bool.or_eq_true, ih, List.mem_cons, HasPrefix_singleton]
    simp [eq_comm]



/-- The code of the digit of value `d`. -/
theorem digitChar_toNat (d : Nat) (hd : d < 10) : (digitChar d).toNat = 48 + d := by
  interval_cases d <;> rfl

/-- Every `digitChar` below ten is a digit. -/
theorem isDigit_digitChar (d : Nat) (hd : d < 10) : isDigit (digitChar d) = true := by
  simp [isDigit, digitChar_toNat d hd]
  omega

/-- A digit differs from every unit that is not a digit. -/
theorem isDigit_ne (c x : Char) (hx : isDigit x = false) (hc : isDigit c = true) : c ≠ x := by
  intro h
  rw [h, hx] at hc
  exact Bool.noConfusion hc

/-- The fast loop of `Atoi` on a numeral computes its positional value. -/
theorem Atoi_fast_map (ds : List Nat) (hds : ∀ d ∈ ds, d < 10) (n : Nat) :
    Atoi.fast (ds.map digitChar) n = some (ds.foldl (fun a d => a * 10 + d) n) := by
  induction ds generalizing n with
  | nil => rfl
  | cons d ds ih =>
    have hd : d < 10 := hds d (by simp)
    have hrest : ∀ e ∈ ds, e < 10 := fun e he => hds e (by simp [he])
    rw [List.map_cons, Atoi.fast, if_pos (isDigit_digitChar d hd), digitChar_toNat d hd,
      ih hrest, List.foldl_cons]
    simp

/-- Reading the digits of `p`, most significant first, gives `p` back. -/
theorem foldl_digits (p : Nat) :
    (Nat.digits 10 p).reverse.foldl (fun a d => a * 10 + d) 0 = p := by
  rw [List.foldl_reverse]
  have h := Nat.ofDigits_digits 10 p
  rw [Nat.ofDigits_eq_foldr] at h
  conv_rhs => rw [← h]
  congr 1
  funext x y
  simp [Nat.mul_comm, Nat.add_comm]

/-- A canonical numeral consists of digits. -/
theorem decimal_all_digits (p : Nat) : ∀ c ∈ decimal p, isDigit c = true := by
  intro c hc
  unfold decimal at hc
  split at hc
  · simp at hc; subst hc; rfl
  · simp only [List.mem_map, List.mem_reverse] at hc
    obtain ⟨d, hd, rfl⟩ := hc
    exact isDigit_digitChar d (Nat.digits_lt_base (by norm_num) hd)

/-- A canonical numeral is not empty. -/
theorem decimal_ne_nil (p : Nat) : decimal p ≠ [] := by
  unfold decimal
  split
  · simp
  · rename_i h
    simp [Nat.digits_ne_nil_iff_ne_zero, h]

/-- The numeral of a port has at most five units. -/
theorem decimal_length (p : Nat) (hp : p ≤ 65535) : (decimal p).length ≤ 5 := by
  unfold decimal
  split
  · simp
  · have := Nat.le_digits_len_le 10 p 65535 hp
    have h5 : (Nat.digits 10 65535).length = 5 := by norm_num
    simp only [List.length_map, List.length_reverse]
    omega

/-- The fast loop of `Atoi` on the numeral of `p` gives `p`. -/
theorem Atoi_fast_decimal (p : Nat) : Atoi.fast (decimal p) 0 = some p := by
  unfold decimal
  split
  · rename_i h; subst h; rfl
  · rw [Atoi_fast_map _ (fun d hd => Nat.digits_lt_base (by norm_num) (List.mem_reverse.mp hd)),
      foldl_digits]

/-- No unit other than a digit occurs in a canonical numeral. -/
theorem decimal_not_mem (p : Nat) (x : Char) (hx : isDigit x = false) : x ∉ decimal p :=
  fun h => isDigit_ne x x hx (decimal_all_digits p x h) rfl

/-- Lemma: `Atoi` on the numeral of a port gives the port, without error. -/
theorem Atoi_decimal (p : Nat) (hp : p ≤ 65535) : Atoi (decimal p) = ((p : Int), none) := by
  have hne := decimal_ne_nil p
  have hlen := decimal_length p hp
  have hpos : 0 < (decimal p).length := List.length_pos.mpr hne
  have hminus : (decimal p).head? ≠ some '-' := by
    intro h
    exact decimal_not_mem p '-' rfl (List.mem_of_mem_head? h)
  have hplus : (decimal p).head? ≠ some '+' := by
    intro h
    exact decimal_not_mem p '+' rfl (List.mem_of_mem_head? h)
  unfold Atoi
  rw [if_pos ⟨hpos, by omega⟩]
  have hsign : ¬ ((decimal p).head? = some '-' ∨ (decimal p).head? = some '+') := by
    rintro (h | h)
    · exact hminus h
    · exact hplus h
  simp only [if_neg hsign, if_neg hne, Atoi_fast_decimal, if_neg hminus]



/-- Lemma: `SplitHostPort` on `host:port` with a host free of colons and brackets. -/
theorem SplitHostPort_plain (host port : GoString) (h1 : ':' ∉ host) (h2 : '[' ∉ host)
    (h3 : ']' ∉ host) (p1 : ':' ∉ port) (p2 : '[' ∉ port) (p3 : ']' ∉ port) :
    SplitHostPort (host ++ ':' :: port) = .ok (host, port) := by
  have hlast := LastIndexByte_append host port ':' p1
  have hhead : (host ++ ':' :: port).head? ≠ some '[' := by
    intro h
    have := List.mem_of_mem_head? h
    simp at this
    rcases this with h | h
    · exact h2 h
    · exact p2 h
  have hslice : slice (host ++ ':' :: port) 0 host.length = host := by simp [slice]
  have hidx : ¬ (0 ≤ Index host ':') := fun h => h1 ((Index_nonneg_iff _ _).mp h)
  have hopen : ¬ (0 ≤ Index (host ++ ':' :: port) '[') := by
    intro h
    have := (Index_nonneg_iff _ _).mp h
    simp at this
    rcases this with h | h
    · exact h2 h
    · exact p2 h
  have hclose : ¬ (0 ≤ Index (host ++ ':' :: port) ']') := by
    intro h
    have := (Index_nonneg_iff _ _).mp h
    simp at this
    rcases this with h | h
    · exact h3 h
    · exact p3 h
  unfold SplitHostPort SplitHostPort.host
  rw [hlast]
  have hneg : ¬ ((host.length : Int) < 0) := by omega
  simp only [if_neg hneg, if_neg hhead, Int.toNat_ofNat, hslice, if_neg hidx, List.drop_zero,
    if_neg hopen, if_neg hclose]
  simp

/-- Lemma: `SplitHostPort` on `[addr]:port`. -/
theorem SplitHostPort_bracket (addr port : GoString) (h2 : '[' ∉ addr)
    (h3 : ']' ∉ addr) (p1 : ':' ∉ port) (p2 : '[' ∉ port) (p3 : ']' ∉ port) :
    SplitHostPort ('[' :: addr ++ ']' :: ':' :: port) = .ok (addr, port) := by
  have hlast : LastIndexByte ('[' :: addr ++ ']' :: ':' :: port) ':' = (addr.length + 2 : Nat) := by
    have := LastIndexByte_append ('[' :: addr ++ [']']) port ':' p1
    simp only [List.cons_append, List.append_assoc, List.singleton_append, List.length_cons,
      List.length_append, List.length_singleton] at this
    simpa using this
  have hend : Index ('[' :: addr ++ ']' :: ':' :: port) ']' = (addr.length + 1 : Nat) := by
    have := Index_append ('[' :: addr) (':' :: port) ']' (by simp [h3])
    simpa using this
  have hhead : ('[' :: addr ++ ']' :: ':' :: port).head? = some '[' := rfl
  have hslice : slice ('[' :: addr ++ ']' :: ':' :: port) 1 (addr.length + 1) = addr := by
    simp [slice]
  have hopen : ¬ (0 ≤ Index (('[' :: addr ++ ']' :: ':' :: port).drop 1) '[') := by
    intro h
    have := (Index_nonneg_iff _ _).mp h
    simp at this
    rcases this with h | h
    · exact h2 h
    · exact p2 h
  have hdrop : ('[' :: addr ++ ']' :: ':' :: port).drop (addr.length + 1 + 1) = ':' :: port := by
    have : '[' :: addr ++ ']' :: ':' :: port = ('[' :: addr ++ [']']) ++ ':' :: port := by simp
    rw [this]
    exact List.drop_left' (by simp)
  have hdrop2 : ('[' :: addr ++ ']' :: ':' :: port).drop (addr.length + 2 + 1) = port := by
    have : '[' :: addr ++ ']' :: ':' :: port = ('[' :: addr ++ [']', ':']) ++ port := by simp
    rw [this]
    exact List.drop_left' (by simp)
  have hclose : ¬ (0 ≤ Index (':' :: port) ']') := by
    intro h
    have := (Index_nonneg_iff _ _).mp h
    simp at this
    exact p3 this
  unfold SplitHostPort SplitHostPort.host
  rw [hlast, hend]
  have hneg : ¬ (((addr.length + 2 : Nat) : Int) < 0) := by omega
  have hneg1 : ¬ (((addr.length + 1 : Nat) : Int) < 0) := by omega
  have hlen : ¬ (((addr.length + 1 : Nat) : Int) + 1 = ('[' :: addr ++ ']' :: ':' :: port).length) := by
    simp only [List.cons_append, List.length_cons, List.length_append]
    push_cast
    omega
  have heq : ((addr.length + 1 : Nat) : Int) + 1 = ((addr.length + 2 : Nat) : Int) := by
    push_cast; ring
  simp only [if_neg hneg, if_pos hhead, if_neg hneg1, if_neg hlen, if_pos heq, Int.toNat_ofNat,
    hslice, if_neg hopen, hdrop, if_neg hclose, hdrop2]

/-- The port text derived from a bind of the form `p` or `host:p` is the numeral of `p`. -/
theorem strPort_of_form (protocol bind : GoString) (p : Nat) (h : isPortOrHostPort bind p) :
    getListenerPortsByAPI.strPort ⟨protocol, bind⟩ = decimal p := by
  have c1 := decimal_not_mem p ':' rfl
  have c2 := decimal_not_mem p '[' rfl
  have c3 := decimal_not_mem p ']' rfl
  unfold getListenerPortsByAPI.strPort
  rcases h with h | ⟨host, h1, h2, h3, h⟩ | ⟨addr, h2, h3, h⟩
  · subst h
    have : ¬ (Contains (decimal p) ":".toList = true) :=
      fun hc => c1 ((Contains_singleton _ _).mp hc)
    simp only [if_neg this]
  · subst h
    have : Contains (host ++ ':' :: decimal p) ":".toList = true :=
      (Contains_singleton _ _).mpr (by simp)
    simp only [if_pos this, SplitHostPort_plain host _ h1 h2 h3 c1 c2 c3]
  · subst h
    have : Contains ('[' :: addr ++ ']' :: ':' :: decimal p) ":".toList = true :=
      (Contains_singleton _ _).mpr (by simp)
    simp only [if_pos this, SplitHostPort_bracket addr _ h2 h3 c1 c2 c3]

/-- A port fits in `int32`. -/
theorem toInt32_port (p : Nat) (hp : p ≤ 65535) : toInt32 (p : Int) = p := by
  unfold toInt32
  omega

/-! ## Lemmas on credential lines -/

/-- The first occurrence of `c` is after the longest run free of `c`. -/
theorem Index_eq_takeWhile (s : GoString) (c : Char) (h : c ∈ s) :
    Index s c = ((s.takeWhile (fun ch => ch ≠ c)).length : Nat) := by
  induction s with
  | nil => simp at h
  | cons x xs ih =>
    by_cases hx : x = c
    · simp [Index, hx, List.takeWhile]
    · have hmem : c ∈ xs := by
        rcases List.mem_cons.mp h with h | h
        · exact absurd h.symm hx
        · exact h
      have hneg : ¬ (Index xs c < 0) := fun hi => (Index_neg_iff xs c).mp hi hmem
      have htw : (x :: xs).takeWhile (fun ch => ch ≠ c) = x :: xs.takeWhile (fun ch => ch ≠ c) := by
        simp [List.takeWhile, hx]
      rw [Index, if_neg hx, if_neg hneg, ih hmem, htw, List.length_cons]
      push_cast; ring

/-- What it means for a line to have the key `u`. -/
theorem lineKey_eq_some (line u : GoString) :
    lineKey line = some u ↔ ':' ∈ line ∧ line.takeWhile (fun ch => ch ≠ ':') = u := by
  unfold lineKey
  split <;> simp [*]

/-- What is left after the longest run free of `c` starts with `c`. -/
theorem dropWhile_head (s : GoString) (c : Char) (h : c ∈ s) :
    s.dropWhile (fun ch => ch ≠ c) = c :: (s.dropWhile (fun ch => ch ≠ c)).drop 1 := by
  induction s with
  | nil => simp at h
  | cons x xs ih =>
    by_cases hx : x = c
    · simp [List.dropWhile, hx]
    · have hmem : c ∈ xs := by
        rcases List.mem_cons.mp h with h | h
        · exact absurd h.symm hx
        · exact h
      have : (x :: xs).dropWhile (fun ch => ch ≠ c) = xs.dropWhile (fun ch => ch ≠ c) := by
        simp [List.dropWhile, hx]
      rw [this]
      exact ih hmem

/-- A line is its key, a colon and its value. -/
theorem line_eq_of_lineKey (line u : GoString) (h : lineKey line = some u) :
    line = u ++ ':' :: lineValue line := by
  obtain ⟨hmem, htw⟩ := (lineKey_eq_some line u).mp h
  have hsplit := List.takeWhile_append_dropWhile (fun ch => decide (ch ≠ ':')) line
  unfold lineValue
  rw [← dropWhile_head line ':' hmem, ← htw]
  exact hsplit.symm

/-- On a line with key `u` the index arithmetic of the loop gives the key and the value. -/
theorem scan_step (u user : GoString) (hkey : lineKey user = some u) :
    slice user 0 (Index user ':').toNat = u ∧
      user.drop ((Index user ':').toNat + 1) = lineValue user ∧
      (Index user ':' = (u.length : Nat)) := by
  obtain ⟨hmem, htw⟩ := (lineKey_eq_some user u).mp hkey
  have hidx := Index_eq_takeWhile user ':' hmem
  rw [htw] at hidx
  have hline := line_eq_of_lineKey user u hkey
  rw [hidx, Int.toNat_ofNat]
  refine ⟨?_, ?_, rfl⟩
  · unfold slice
    rw [List.drop_zero]
    conv_lhs => rw [hline]
    exact List.take_left' rfl
  · conv_lhs => rw [hline]
    have : u ++ ':' :: lineValue user = (u ++ [':']) ++ lineValue user := by simp
    rw [this]
    exact List.drop_left' (by simp)

/-- The test of the loop holds only on a line with key `u`. -/
theorem scan_cond_imp (u user : GoString)
    (h : 0 < Index user ':' ∧ slice user 0 (Index user ':').toNat = u) :
    lineKey user = some u := by
  obtain ⟨hpos, hs⟩ := h
  have hmem : ':' ∈ user := by
    by_contra hc
    have := (Index_neg_iff user ':').mpr hc
    omega
  rw [lineKey_eq_some]
  refine ⟨hmem, ?_⟩
  have hk : lineKey user = some (user.takeWhile (fun ch => ch ≠ ':')) := by
    simp [lineKey, hmem]
  rw [← hs]
  exact ((scan_step _ user hk).1).symm

/-- Without a line of key `u` the loop finds nothing. -/
theorem scan_none (u : GoString) (lines : List GoString)
    (h : ∀ l ∈ lines, lineKey l ≠ some u) : getBootstrapUser.scan u lines = none := by
  induction lines with
  | nil => rfl
  | cons user rest ih =>
    have hnot : ¬ (0 < Index user ':' ∧ slice user 0 (Index user ':').toNat = u) :=
      fun hc => h user (by simp) (scan_cond_imp u user hc)
    rw [getBootstrapUser.scan, if_neg hnot]
    exact ih (fun l hl => h l (by simp [hl]))

/-- The loop stops at the first line whose key is the non-empty `u`. -/
theorem scan_first (u : GoString) (hu : u ≠ []) (lines : List GoString)
    (h : ∃ l ∈ lines, lineKey l = some u) :
    ∃ before line after, lines = before ++ line :: after ∧
      (∀ l ∈ before, lineKey l ≠ some u) ∧ lineKey line = some u ∧
      getBootstrapUser.scan u lines = some (u, lineValue line) := by
  induction lines with
  | nil => simp at h
  | cons user rest ih =>
    by_cases hkey : lineKey user = some u
    · obtain ⟨h1, h2, h3⟩ := scan_step u user hkey
      have hpos : 0 < Index user ':' := by
        rw [h3]
        have := List.length_pos.mpr hu
        omega
      refine ⟨[], user, rest, rfl, by simp, hkey, ?_⟩
      rw [getBootstrapUser.scan, if_pos ⟨hpos, h1⟩, h1, h2]
    · have hrest : ∃ l ∈ rest, lineKey l = some u := by
        obtain ⟨l, hl, hk⟩ := h
        rcases List.mem_cons.mp hl with rfl | hl
        · exact absurd hk hkey
        · exact ⟨l, hl, hk⟩
      obtain ⟨before, line, after, e, hb, hk, hs⟩ := ih hrest
      have hnot : ¬ (0 < Index user ':' ∧ slice user 0 (Index user ':').toNat = u) :=
        fun hc => hkey (scan_cond_imp u user hc)
      refine ⟨user :: before, line, after, by simp [e], ?_, hk, ?_⟩
      · intro l hl
        rcases List.mem_cons.mp hl with rfl | hl
        · exact hkey
        · exact hb l hl
      · rw [getBootstrapUser.scan, if_neg hnot]
        exact hs

/-! ## Lemmas on the loops -/

/-- The inner loop of `requestAPI` decides `podReady`. -/
theorem scanContainers_eq (name : GoString) (statuses : List ContainerStatus) :
    requestAPI.scanContainers name statuses =
      statuses.any (fun status => status.Name = name && status.Ready) := by
  induction statuses with
  | nil => rfl
  | cons s rest ih =>
    rw [requestAPI.scanContainers, List.any_cons, ih]
    by_cases hn : s.Name = name <;> cases hr : s.Ready <;> simp [hn, hr]

/-- The outer loop of `requestAPI` calls the first ready pod, if any. -/
theorem scanPods_eq (c : Cluster) (r : RequestAPIFields) (method path body : GoString)
    (pods : List Pod) :
    requestAPI.scanPods c r method path body pods =
      match firstReadyPod c.EmqxContainerName pods with
      | some pod =>
        .returned [⟨pod, r.Username, r.Password, r.Port, method, path, body⟩]
          (c.RequestAPI ⟨pod, r.Username, r.Password, r.Port, method, path, body⟩)
      | none => .returned [] (.failure .ErrPodNotReady) := by
  induction pods with
  | nil => rfl
  | cons pod rest ih =>
    unfold firstReadyPod at ih ⊢
    rw [requestAPI.scanPods, scanContainers_eq, List.find?_cons]
    have hany : (pod.ContainerStatuses.any
        (fun status => status.Name = c.EmqxContainerName && status.Ready)) =
        podReady c.EmqxContainerName pod := rfl
    rw [hany]
    cases hp : podReady c.EmqxContainerName pod
    · simp only [ih, Bool.false_eq_true, if_false]
    · simp only [if_true]

/-- Lemma: `HasPrefix` decides being `w` followed by something. -/
theorem HasPrefix_iff (s w : GoString) : HasPrefix s w = true ↔ ∃ post, s = w ++ post := by
  induction w generalizing s with
  | nil => simp [HasPrefix]
  | cons p ps ih =>
    cases s with
    | nil => simp [HasPrefix]
    | cons x xs =>
      simp only [HasPrefix, Bool.and_eq_true, decide_eq_true_eq, ih, List.cons_append,
        List.cons.injEq]
      constructor
      · rintro ⟨rfl, post, rfl⟩
        exact ⟨post, rfl, rfl⟩
      · rintro ⟨post, rfl, rfl⟩
        exact ⟨rfl, post, rfl⟩

/-- Lemma: `Contains` decides having an occurrence of `w`. -/
theorem Contains_iff (s w : GoString) :
    Contains s w = true ↔ ∃ pre post, s = pre ++ w ++ post := by
  induction s with
  | nil =>
    simp only [Contains, HasPrefix_iff]
    constructor
    · rintro ⟨post, h⟩
      exact ⟨[], post, by simpa using h⟩
    · rintro ⟨pre, post, h⟩
      have h' := h.symm
      simp only [List.append_assoc, List.append_eq_nil] at h'
      exact ⟨[], by simp [h'.2.1]⟩
  | cons x xs ih =>
    simp only [Contains, Bool.or_eq_true, HasPrefix_iff, ih]
    constructor
    · rintro (⟨post, h⟩ | ⟨pre, post, h⟩)
      · exact ⟨[], post, by simpa using h⟩
      · exact ⟨x :: pre, post, by simp [h]⟩
    · rintro ⟨pre, post, h⟩
      cases pre with
      | nil => exact Or.inl ⟨post, by simpa using h⟩
      | cons y ys =>
        simp only [List.cons_append, List.cons.injEq] at h
        exact Or.inr ⟨ys, post, by simpa using h.2⟩

/-- The ports loop appends the entry of each listener in order. -/
theorem ports_eq (listeners : List emqxListener) (acc : List ServicePort) :
    getListenerPortsByAPI.ports listeners acc =
      acc ++ listeners.map getListenerPortsByAPI.servicePort := by
  induction listeners generalizing acc with
  | nil => simp [getListenerPortsByAPI.ports]
  | cons l rest ih => simp [getListenerPortsByAPI.ports, ih]

/-! ## The claims -/

/-- C1: evaluation of the reconciliation on the three per-node lists `[[A,B],[B,C],[C]]`.
Two lists `[[A,B],[B,C]]` give `[B]`, but with the third list the result is `[C]` and not the
empty list, although the bind of `C` is absent from the first node's list: the loop assigns
each pairwise intersection to `listeners` without intersecting it with the previous one. -/
theorem reconcile_three_nodes_keeps_last_pair :
    getListenerPortsByAPI.reconcile
        [⟨"n1".toList, [listenerA, listenerB]⟩, ⟨"n2".toList, [listenerB, listenerC]⟩] =
      [listenerB] ∧
    getListenerPortsByAPI.reconcile
        [⟨"n1".toList, [listenerA, listenerB]⟩, ⟨"n2".toList, [listenerB, listenerC]⟩,
         ⟨"n3".toList, [listenerC]⟩] = [listenerC] ∧
    listenerC.ListenOn ∉ [listenerA, listenerB].map (fun l => l.ListenOn) ∧
    getListenerPortsByAPI.ports
        (getListenerPortsByAPI.reconcile
          [⟨"n1".toList, [listenerA, listenerB]⟩, ⟨"n2".toList, [listenerB, listenerC]⟩,
           ⟨"n3".toList, [listenerC]⟩]) [] =
      [⟨"mqtt-ws-8083".toList, .ProtocolTCP, 8083, .FromInt 8083⟩] := by
  decide

/-- C2: when the enumeration yields a non-empty list of pod groups, `requestAPI` asks for the
pods of its last element only; it then issues exactly one HTTP call, to the first pod in
enumeration order whose emqx container reports ready, and returns that call's result; when no
pod of that group is ready it returns `ErrPodNotReady` and issues no HTTP call. -/
theorem requestAPI_targets_first_ready_pod_of_last_group (c : Cluster) (r : RequestAPIFields)
    (inst : Emqx) (method path body : GoString) (list : List StatefulSet) (sts : StatefulSet)
    (henum : requestAPI.enumerate c inst path = .ok list) (hlast : list.getLast? = some sts) :
    requestAPI c r inst method path body =
      match c.getPodMap inst [sts] with
      | .error err => .returned [] (.failure err)
      | .ok podMap =>
        match firstReadyPod c.EmqxContainerName (podMap sts.UID) with
        | some pod =>
          .returned [⟨pod, r.Username, r.Password, r.Port, method, path, body⟩]
            (c.RequestAPI ⟨pod, r.Username, r.Password, r.Port, method, path, body⟩)
        | none => .returned [] (.failure .ErrPodNotReady) := by
  unfold requestAPI
  simp only [henum, hlast]
  cases hmap : c.getPodMap inst [sts] with
  | error err => rfl
  | ok podMap =>
    simp only
    by_cases hlen : (podMap sts.UID).length = 0
    · have hnil : podMap sts.UID = [] := List.length_eq_zero.mp hlen
      simp [hnil, firstReadyPod]
    · rw [if_neg hlen]
      refine (scanPods_eq c r method path body (podMap sts.UID)).trans ?_
      cases firstReadyPod c.EmqxContainerName (podMap sts.UID) <;> rfl

/-- Witness of C2 on the sample cluster: of the two pod groups the newer one is used, and
of its pods the second, the first being unready. -/
theorem requestAPI_targets_first_ready_pod_of_last_group_witness :
    requestAPI.enumerate sampleCluster sampleBroker "api/v4/listeners".toList =
        .ok [sampleOld, sampleNew] ∧
      [sampleOld, sampleNew].getLast? = some sampleNew ∧
      requestAPI sampleCluster sampleFields sampleBroker "GET".toList "api/v4/listeners".toList [] =
        .returned [sampleCall "GET".toList "api/v4/listeners".toList]
          ⟨some ⟨204, "204 No Content".toList⟩, [], none⟩ :=
  ⟨rfl, rfl,
    requestAPI_targets_first_ready_pod_of_last_group sampleCluster sampleFields sampleBroker
      "GET".toList "api/v4/listeners".toList [] [sampleOld, sampleNew] sampleNew rfl rfl⟩

/-- C3: when the secret holds a credential blob in which some line has its key (the text
before its first colon) equal to the bootstrap username, `getBootstrapUser` returns that
username with the whole text after the first colon of the first such line: no earlier line
has that key, and the line is the username, a colon and the returned password, colons in the
password included. The bootstrap username is a package constant and is taken to be
non-empty. -/
theorem getBootstrapUser_returns_first_matching_line (c : Cluster) (inst : Emqx)
    (secret : Secret) (data : GoString) (hname : c.defUsername ≠ [])
    (hsecret : c.getSecret inst.GetNamespace (inst.GetName ++ "-bootstrap-user".toList) =
      .ok secret)
    (hdata : secret.Data "bootstrap_user".toList = some data)
    (hline : ∃ line ∈ Split '\n' data, lineKey line = some c.defUsername) :
    ∃ before line after password,
      Split '\n' data = before ++ line :: after ∧
      (∀ l ∈ before, lineKey l ≠ some c.defUsername) ∧
      lineKey line = some c.defUsername ∧
      lineValue line = password ∧
      line = c.defUsername ++ ':' :: password ∧
      getBootstrapUser c inst = .ok (c.defUsername, password) := by
  obtain ⟨before, line, after, hsplit, hbefore, hkey, hscan⟩ :=
    scan_first c.defUsername hname (Split '\n' data) hline
  refine ⟨before, line, after, lineValue line, hsplit, hbefore, hkey, rfl,
    line_eq_of_lineKey line c.defUsername hkey, ?_⟩
  unfold getBootstrapUser
  simp only [hsecret, hdata, hscan]

set_option maxRecDepth 100000 in
/-- Witness of C3 on the sample cluster: the second line is selected, and its password keeps
its two colons. -/
theorem getBootstrapUser_returns_first_matching_line_witness :
    sampleCluster.defUsername ≠ [] ∧
      (∃ line ∈ Split '\n' sampleBlob, lineKey line = some sampleCluster.defUsername) ∧
      ∃ before line after password,
        Split '\n' sampleBlob = before ++ line :: after ∧
        (∀ l ∈ before, lineKey l ≠ some sampleCluster.defUsername) ∧
        lineKey line = some sampleCluster.defUsername ∧
        lineValue line = password ∧
        line = sampleCluster.defUsername ++ ':' :: password ∧
        getBootstrapUser sampleCluster sampleBroker = .ok (sampleCluster.defUsername, password) :=
  ⟨by decide, ⟨"emqx_operator_controller:pa:ss:word".toList, by decide, by decide⟩,
    getBootstrapUser_returns_first_matching_line sampleCluster sampleBroker
      ⟨fun key => if key = "bootstrap_user".toList then some sampleBlob else none⟩ sampleBlob
      (by decide) rfl rfl
      ⟨"emqx_operator_controller:pa:ss:word".toList, by decide, by decide⟩⟩

/-- C4: when the secret is found but no line of its credential blob has a key equal to the
bootstrap username (in particular when the blob is empty, or when the secret has no
`bootstrap_user` entry), `getBootstrapUser` returns the error
"the secret does not contain the bootstrap_user" and no username or password. -/
theorem getBootstrapUser_fails_without_matching_line (c : Cluster) (inst : Emqx)
    (secret : Secret)
    (hsecret : c.getSecret inst.GetNamespace (inst.GetName ++ "-bootstrap-user".toList) =
      .ok secret)
    (hnone : ∀ data, secret.Data "bootstrap_user".toList = some data →
      ∀ line ∈ Split '\n' data, lineKey line ≠ some c.defUsername) :
    getBootstrapUser c inst =
      .error (.Errorf "the secret does not contain the bootstrap_user".toList) := by
  unfold getBootstrapUser
  simp only [hsecret]
  cases hdata : secret.Data "bootstrap_user".toList with
  | none => rfl
  | some data =>
    simp only [scan_none c.defUsername (Split '\n' data) (hnone data hdata)]

set_option maxRecDepth 100000 in
/-- Witness of C4: a blob whose lines have the keys `admin`, the empty key, and no key. -/
theorem getBootstrapUser_fails_without_matching_line_witness :
    getBootstrapUser sampleClusterNoUser sampleBroker =
      .error (.Errorf "the secret does not contain the bootstrap_user".toList) :=
  getBootstrapUser_fails_without_matching_line sampleClusterNoUser sampleBroker
    ⟨fun key =>
      if key = "bootstrap_user".toList then
        some "admin:public\n:secret\nemqx_operator_controller".toList
      else none⟩
    rfl
    (fun data hdata => by
      have hd : "admin:public\n:secret\nemqx_operator_controller".toList = data :=
        Option.some.inj hdata
      subst hd
      decide)

/-- C5, counterexample: with the wait-takeover value `-1`, which is not zero, the payload has
no `wait_takeover` key. -/
theorem evacuation_body_negative_wait_takeover_omitted :
    ¬ ((⟨-1, 10, 20⟩ : EvacuationStrategy).WaitTakeover ≠ 0 →
      (startEvacuateNodeByAPI.body sampleCluster sampleBroker ⟨-1, 10, 20⟩ []).get
        "wait_takeover".toList = some (.number (-1))) := by
  decide

/-- C5, amended: the payload built by `startEvacuateNodeByAPI` has `wait_takeover` equal to
the configured value `w` when `w` is greater than zero, and has no `wait_takeover` key when
`w` is zero or negative. -/
theorem evacuation_body_wait_takeover_iff_positive (c : Cluster) (inst : Emqx)
    (strategy : EvacuationStrategy) (migrateToPods : List Pod) :
    (startEvacuateNodeByAPI.body c inst strategy migrateToPods).get "wait_takeover".toList =
      if 0 < strategy.WaitTakeover then some (.number strategy.WaitTakeover) else none := by
  unfold startEvacuateNodeByAPI.body
  split <;> rfl

/-- C6: for an instance that is not of the enterprise flavor, `startEvacuateNodeByAPI`
returns the error "failed to evacuate node, only support emqx enterprise" and issues no HTTP
call, whatever the destination pods and the node name. -/
theorem startEvacuateNodeByAPI_rejects_non_enterprise (c : Cluster) (r : RequestAPIFields)
    (inst : Emqx) (migrateToPods : List Pod) (nodeName : GoString)
    (hflavor : inst.isEnterprise = false) :
    startEvacuateNodeByAPI c r inst migrateToPods nodeName =
        .returned []
          (some (.Errorf "failed to evacuate node, only support emqx enterprise".toList)) ∧
      (startEvacuateNodeByAPI c r inst migrateToPods nodeName).calls = [] := by
  cases inst with
  | EmqxBroker obj => exact ⟨rfl, rfl⟩
  | EmqxEnterprise obj strategy => simp [Emqx.isEnterprise] at hflavor

/-- Witness of C6 on the sample broker instance. -/
theorem startEvacuateNodeByAPI_rejects_non_enterprise_witness :
    sampleBroker.isEnterprise = false ∧
      startEvacuateNodeByAPI sampleCluster sampleFields sampleBroker
          [samplePod "emqx-ee-85c9-1".toList true] "emqx@10.0.0.1".toList =
        .returned []
          (some (.Errorf "failed to evacuate node, only support emqx enterprise".toList)) ∧
      (startEvacuateNodeByAPI sampleCluster sampleFields sampleBroker
          [samplePod "emqx-ee-85c9-1".toList true] "emqx@10.0.0.1".toList).calls = [] :=
  ⟨rfl,
    startEvacuateNodeByAPI_rejects_non_enterprise sampleCluster sampleFields sampleBroker
      [samplePod "emqx-ee-85c9-1".toList true] "emqx@10.0.0.1".toList rfl⟩

/-- C7, counterexample: the status 204 is in the 2xx range, yet `loadPluginByAPI` returns the
error "request api failed: 204 No Content". -/
theorem loadPluginByAPI_rejects_status_204 :
    ((200 : Int) ≤ 204 ∧ (204 : Int) < 300) ∧
      loadPluginByAPI sampleCluster sampleFields sampleBroker "emqx@10.0.0.1".toList
          "emqx_management".toList "reload".toList =
        .returned
          [sampleCall "PUT".toList "api/v4/nodes/emqx@10.0.0.1/plugins/emqx_management/reload".toList]
          (some (.Errorf "request api failed: 204 No Content".toList)) := by
  decide

/-- C7, amended: for every response to a plugin reload or unload call, `loadPluginByAPI`
returns success if and only if the status code is exactly 200, without reading the response
body; every other status code, the other 2xx codes included, gives the error
"request api failed: " followed by the observed status. -/
theorem loadPluginByAPI_succeeds_iff_status_200 (c : Cluster) (r : RequestAPIFields)
    (emqx : Emqx) (nodeName pluginName reloadOrUnload : GoString) (calls : List HttpCall)
    (resp : Response) (body : GoString)
    (hreply : requestAPI c r emqx "PUT".toList
        ("api/v4/nodes/".toList ++ nodeName ++ "/plugins/".toList ++ pluginName ++ "/".toList ++
          reloadOrUnload) [] = .returned calls ⟨some resp, body, none⟩) :
    loadPluginByAPI c r emqx nodeName pluginName reloadOrUnload =
        .returned calls
          (if resp.StatusCode = 200 then none
           else some (.Errorf ("request api failed: ".toList ++ resp.Status))) ∧
      (loadPluginByAPI c r emqx nodeName pluginName reloadOrUnload = .returned calls none ↔
        resp.StatusCode = 200) := by
  have h : loadPluginByAPI c r emqx nodeName pluginName reloadOrUnload =
      .returned calls
        (if resp.StatusCode = 200 then none
         else some (.Errorf ("request api failed: ".toList ++ resp.Status))) := by
    unfold loadPluginByAPI
    simp only [hreply]
    by_cases hs : resp.StatusCode = 200 <;> simp [hs]
  refine ⟨h, ?_⟩
  rw [h]
  by_cases hs : resp.StatusCode = 200 <;> simp [hs]

/-- Witness of C7 (amended) on the sample cluster, whose HTTP client answers 204. -/
theorem loadPluginByAPI_succeeds_iff_status_200_witness :
    loadPluginByAPI sampleCluster sampleFields sampleBroker "emqx@10.0.0.1".toList
          "emqx_management".toList "unload".toList =
        .returned
          [sampleCall "PUT".toList "api/v4/nodes/emqx@10.0.0.1/plugins/emqx_management/unload".toList]
          (if (204 : Int) = 200 then none
           else some (.Errorf ("request api failed: ".toList ++ "204 No Content".toList))) ∧
      (loadPluginByAPI sampleCluster sampleFields sampleBroker "emqx@10.0.0.1".toList
          "emqx_management".toList "unload".toList =
        .returned
          [sampleCall "PUT".toList "api/v4/nodes/emqx@10.0.0.1/plugins/emqx_management/unload".toList]
          none ↔ (204 : Int) = 200) :=
  loadPluginByAPI_succeeds_iff_status_200 sampleCluster sampleFields sampleBroker
    "emqx@10.0.0.1".toList "emqx_management".toList "unload".toList
    [sampleCall "PUT".toList "api/v4/nodes/emqx@10.0.0.1/plugins/emqx_management/unload".toList]
    ⟨204, "204 No Content".toList⟩ [] (by decide)

/-- C8: for a listener whose bind is the canonical decimal numeral of a port `p` of at most
65535 (so in particular of a port between 1 and 65535), or `host:p`, the derived entry has
numeric port and target port `p`, and its name is the protocol tag with every colon-and-digits group removed and every remaining colon
replaced by a hyphen, followed by a hyphen and the numeral of `p`. Tag `mqtt:wss:8084` on bind
`0.0.0.0:8084` gives `mqtt-wss-8084`, TCP, 8084, and tag `mqtt:dtls` on bind `1883` gives
`mqtt-dtls-1883`, UDP, 1883. -/
theorem servicePort_of_port_or_host_port (protocol bind : GoString) (p : Nat)
    (hhigh : p ≤ 65535) (hbind : isPortOrHostPort bind p) :
    ((getListenerPortsByAPI.servicePort ⟨protocol, bind⟩).Port = (p : Int) ∧
      (getListenerPortsByAPI.servicePort ⟨protocol, bind⟩).TargetPort = .FromInt (p : Int) ∧
      (getListenerPortsByAPI.servicePort ⟨protocol, bind⟩).Name =
        ReplaceAll (stripColonDigits protocol) ':' '-' ++ '-' :: decimal p) ∧
    getListenerPortsByAPI.servicePort ⟨"mqtt:wss:8084".toList, "0.0.0.0:8084".toList⟩ =
      ⟨"mqtt-wss-8084".toList, .ProtocolTCP, 8084, .FromInt 8084⟩ ∧
    getListenerPortsByAPI.servicePort ⟨"mqtt:dtls".toList, "1883".toList⟩ =
      ⟨"mqtt-dtls-1883".toList, .ProtocolUDP, 1883, .FromInt 1883⟩ := by
  have hstr := strPort_of_form protocol bind p hbind
  have hatoi := Atoi_decimal p hhigh
  have h32 := toInt32_port p hhigh
  refine ⟨⟨?_, ?_, ?_⟩, by decide, by decide⟩
  · simp only [getListenerPortsByAPI.servicePort, hstr, hatoi, h32]
  · simp only [getListenerPortsByAPI.servicePort, hstr, hatoi, FromInt, h32]
  · simp only [getListenerPortsByAPI.servicePort, hstr]
    simp

/-- Witness of C8: tag `mqtt:ws:8083` on bind `emqx.local:8083`. -/
theorem servicePort_of_port_or_host_port_witness :
    isPortOrHostPort "emqx.local:8083".toList 8083 ∧
    (((getListenerPortsByAPI.servicePort ⟨"mqtt:ws:8083".toList, "emqx.local:8083".toList⟩).Port =
        ((8083 : Nat) : Int) ∧
      (getListenerPortsByAPI.servicePort
        ⟨"mqtt:ws:8083".toList, "emqx.local:8083".toList⟩).TargetPort = .FromInt ((8083 : Nat) : Int) ∧
      (getListenerPortsByAPI.servicePort ⟨"mqtt:ws:8083".toList, "emqx.local:8083".toList⟩).Name =
        ReplaceAll (stripColonDigits "mqtt:ws:8083".toList) ':' '-' ++ '-' :: decimal 8083) ∧
    getListenerPortsByAPI.servicePort ⟨"mqtt:wss:8084".toList, "0.0.0.0:8084".toList⟩ =
      ⟨"mqtt-wss-8084".toList, .ProtocolTCP, 8084, .FromInt 8084⟩ ∧
    getListenerPortsByAPI.servicePort ⟨"mqtt:dtls".toList, "1883".toList⟩ =
      ⟨"mqtt-dtls-1883".toList, .ProtocolUDP, 1883, .FromInt 1883⟩) :=
  ⟨Or.inr (Or.inl ⟨"emqx.local".toList, by decide, by decide, by decide,
      by simp [decimal, digitChar]⟩),
    servicePort_of_port_or_host_port "mqtt:ws:8083".toList "emqx.local:8083".toList 8083
      (by decide)
      (Or.inr (Or.inl ⟨"emqx.local".toList, by decide, by decide, by decide,
        by simp [decimal, digitChar]⟩))⟩

/-- C9, counterexample: the tag `MQTT:DTLS` contains `dtls` when compared without regard to
case, yet its derived transport protocol is TCP. -/
theorem servicePort_upper_case_dtls_is_tcp :
    containsFold "MQTT:DTLS".toList "dtls".toList = true ∧
      (getListenerPortsByAPI.servicePort ⟨"MQTT:DTLS".toList, "1883".toList⟩).Protocol =
        .ProtocolTCP := by
  decide

/-- C9, amended: the derived transport protocol is UDP if and only if the protocol tag
contains one of the words `udp`, `dtls`, `sn` exactly as written, in lower case; otherwise
it is TCP. -/
theorem servicePort_udp_iff_contains_word (l : emqxListener) :
    ((getListenerPortsByAPI.servicePort l).Protocol = .ProtocolUDP ↔
      ∃ word ∈ ["udp".toList, "dtls".toList, "sn".toList],
        ∃ before after, l.Protocol = before ++ word ++ after) ∧
    ((getListenerPortsByAPI.servicePort l).Protocol ≠ .ProtocolUDP →
      (getListenerPortsByAPI.servicePort l).Protocol = .ProtocolTCP) := by
  have hmatch : matchUDP l.Protocol = true ↔
      ∃ word ∈ ["udp".toList, "dtls".toList, "sn".toList],
        ∃ before after, l.Protocol = before ++ word ++ after := by
    unfold matchUDP
    simp only [Bool.or_eq_true, Contains_iff, List.mem_cons, List.mem_singleton,
      List.not_mem_nil, or_false, exists_eq_or_imp, exists_eq_left, or_assoc]
  constructor
  · rw [← hmatch]
    cases hm : matchUDP l.Protocol <;> simp [getListenerPortsByAPI.servicePort, hm]
  · cases hm : matchUDP l.Protocol <;> simp [getListenerPortsByAPI.servicePort, hm]

/-- C10: when the decoded response has exactly one reporting node, `getListenerPortsByAPI`
returns one port entry per listener of that node, in the node's order, none dropped and
none merged. -/
theorem getListenerPortsByAPI_single_node_verbatim (c : Cluster) (r : RequestAPIFields)
    (inst : Emqx) (calls : List HttpCall) (reply : HttpReply) (node : emqxListeners)
    (hreply : requestAPI c r inst "GET".toList "api/v4/listeners".toList [] =
      .returned calls reply)
    (herr : reply.err = none) (hdecode : c.decodeListeners reply.body = .ok [node]) :
    getListenerPortsByAPI.reconcile [node] = node.Listeners ∧
      getListenerPortsByAPI c r inst =
        .returned calls (.ok (node.Listeners.map getListenerPortsByAPI.servicePort)) ∧
      ∀ ports, getListenerPortsByAPI c r inst = .returned calls (.ok ports) →
        ports.length = node.Listeners.length := by
  have h : getListenerPortsByAPI c r inst =
      .returned calls (.ok (node.Listeners.map getListenerPortsByAPI.servicePort)) := by
    unfold getListenerPortsByAPI
    simp only [hreply, herr, hdecode, getListenerPortsByAPI.reconcile, ports_eq, List.nil_append]
  refine ⟨rfl, h, ?_⟩
  intro ports hports
  rw [h] at hports
  injection hports with _ hp
  injection hp with hp
  rw [← hp, List.length_map]

set_option maxRecDepth 100000 in
/-- Witness of C10 on the sample cluster: the single node reports the listener `A` twice,
and both entries are kept. -/
theorem getListenerPortsByAPI_single_node_verbatim_witness :
    getListenerPortsByAPI.reconcile
        [⟨"emqx@10.0.0.1".toList, [listenerA, listenerB, listenerA]⟩] =
        [listenerA, listenerB, listenerA] ∧
      getListenerPortsByAPI sampleCluster sampleFields sampleBroker =
        .returned [sampleCall "GET".toList "api/v4/listeners".toList]
          (.ok ([listenerA, listenerB, listenerA].map getListenerPortsByAPI.servicePort)) ∧
      ∀ ports, getListenerPortsByAPI sampleCluster sampleFields sampleBroker =
          .returned [sampleCall "GET".toList "api/v4/listeners".toList] (.ok ports) →
        ports.length = [listenerA, listenerB, listenerA].length :=
  getListenerPortsByAPI_single_node_verbatim sampleCluster sampleFields sampleBroker
    [sampleCall "GET".toList "api/v4/listeners".toList]
    ⟨some ⟨204, "204 No Content".toList⟩, [], none⟩
    ⟨"emqx@10.0.0.1".toList, [listenerA, listenerB, listenerA]⟩ (by decide) rfl rfl

/-! ## Lemmas for the remaining claims -/

/-- The accumulator of the collecting loop is a prefix of its result. -/
theorem collect_acc (l : List emqxListener) (h : List GoString) (ans : List emqxListener) :
    intersection.collect l h ans = ans ++ intersection.collect l h [] := by
  induction l generalizing h ans with
  | nil => simp [intersection.collect]
  | cons x rest ih =>
    by_cases hx : x.ListenOn ∈ h
    · rw [intersection.collect, if_pos hx, ih, intersection.collect, if_pos hx,
        ih _ ([] ++ [x])]
      simp
    · rw [intersection.collect, if_neg hx, ih, intersection.collect, if_neg hx]

/-- Unfolding of the collecting loop on a kept entry. -/
theorem collect_cons_mem (x : emqxListener) (rest : List emqxListener) (h : List GoString)
    (hx : x.ListenOn ∈ h) :
    intersection.collect (x :: rest) h [] =
      x :: intersection.collect rest (hSection.delete h x.ListenOn) [] := by
  rw [intersection.collect, if_pos hx, collect_acc]
  rfl

/-- Unfolding of the collecting loop on a skipped entry. -/
theorem collect_cons_not_mem (x : emqxListener) (rest : List emqxListener) (h : List GoString)
    (hx : x.ListenOn ∉ h) :
    intersection.collect (x :: rest) h [] = intersection.collect rest h [] := by
  rw [intersection.collect, if_neg hx]

/-- Membership in a key set after a deletion. -/
theorem mem_delete (h : List GoString) (key k : GoString) :
    k ∈ hSection.delete h key ↔ k ∈ h ∧ k ≠ key := by
  simp [hSection.delete]

/-- Membership in the key set built by the first loop of `intersection`. -/
theorem mem_insert_fold (l : List emqxListener) (h : List GoString) (k : GoString) :
    k ∈ l.foldl (fun h listener => hSection.insert h listener.ListenOn) h ↔
      k ∈ h ∨ k ∈ l.map (fun e => e.ListenOn) := by
  induction l generalizing h with
  | nil => simp
  | cons x rest ih =>
    rw [List.foldl_cons, ih]
    unfold hSection.insert
    by_cases hx : x.ListenOn ∈ h
    · simp only [if_pos hx, List.map_cons, List.mem_cons]
      constructor
      · rintro (hk | hk)
        · exact Or.inl hk
        · exact Or.inr (Or.inr hk)
      · rintro (hk | rfl | hk)
        · exact Or.inl hk
        · exact Or.inl hx
        · exact Or.inr hk
    · simp only [if_neg hx, List.map_cons, List.mem_cons]
      constructor
      · rintro ((rfl | hk) | hk)
        · exact Or.inr (Or.inl rfl)
        · exact Or.inl hk
        · exact Or.inr (Or.inr hk)
      · rintro (hk | rfl | hk)
        · exact Or.inl (Or.inr hk)
        · exact Or.inl (Or.inl rfl)
        · exact Or.inr hk

/-- The collecting loop returns a subsequence of the scanned list. -/
theorem collect_sublist (l : List emqxListener) (h : List GoString) :
    (intersection.collect l h []).Sublist l := by
  induction l generalizing h with
  | nil => simp [intersection.collect]
  | cons x rest ih =>
    by_cases hx : x.ListenOn ∈ h
    · rw [collect_cons_mem x rest h hx]
      exact (ih _).cons₂ x
    · rw [collect_cons_not_mem x rest h hx]
      exact (ih _).cons x

/-- The keys returned by the collecting loop are those of the set that occur in the list. -/
theorem collect_keys (l : List emqxListener) (h : List GoString) (k : GoString) :
    k ∈ (intersection.collect l h []).map (fun e => e.ListenOn) ↔
      k ∈ h ∧ k ∈ l.map (fun e => e.ListenOn) := by
  induction l generalizing h with
  | nil => simp [intersection.collect]
  | cons x rest ih =>
    by_cases hx : x.ListenOn ∈ h
    · rw [collect_cons_mem x rest h hx, List.map_cons, List.mem_cons, ih, mem_delete,
        List.map_cons, List.mem_cons]
      constructor
      · rintro (rfl | ⟨⟨hk, _⟩, hr⟩)
        · exact ⟨hx, Or.inl rfl⟩
        · exact ⟨hk, Or.inr hr⟩
      · rintro ⟨hk, hk' | hr⟩
        · exact Or.inl hk'
        · by_cases hkx : k = x.ListenOn
          · exact Or.inl hkx
          · exact Or.inr ⟨⟨hk, hkx⟩, hr⟩
    · rw [collect_cons_not_mem x rest h hx, ih, List.map_cons, List.mem_cons]
      constructor
      · rintro ⟨hk, hr⟩
        exact ⟨hk, Or.inr hr⟩
      · rintro ⟨hk, rfl | hr⟩
        · exact absurd hk hx
        · exact ⟨hk, hr⟩

/-- The keys returned by the collecting loop are pairwise distinct. -/
theorem collect_nodup (l : List emqxListener) (h : List GoString) :
    ((intersection.collect l h []).map (fun e => e.ListenOn)).Nodup := by
  induction l generalizing h with
  | nil => simp [intersection.collect]
  | cons x rest ih =>
    by_cases hx : x.ListenOn ∈ h
    · rw [collect_cons_mem x rest h hx, List.map_cons, List.nodup_cons]
      refine ⟨?_, ih _⟩
      intro hmem
      have := ((collect_keys rest _ x.ListenOn).mp hmem).1
      exact ((mem_delete h x.ListenOn x.ListenOn).mp this).2 rfl
    · rw [collect_cons_not_mem x rest h hx]
      exact ih _

/-- Every entry returned by the collecting loop is the first of the list with its key. -/
theorem collect_first (l : List emqxListener) (h : List GoString) (e : emqxListener)
    (he : e ∈ intersection.collect l h []) :
    l.find? (fun x => x.ListenOn = e.ListenOn) = some e := by
  induction l generalizing h with
  | nil => simp [intersection.collect] at he
  | cons x rest ih =>
    by_cases hx : x.ListenOn ∈ h
    · rw [collect_cons_mem x rest h hx, List.mem_cons] at he
      rcases he with rfl | he
      · simp
      · have hk : e.ListenOn ∈ hSection.delete h x.ListenOn :=
          ((collect_keys rest _ e.ListenOn).mp (List.mem_map_of_mem _ he)).1
        have hne : x.ListenOn ≠ e.ListenOn :=
          fun hc => ((mem_delete h x.ListenOn e.ListenOn).mp hk).2 hc.symm
        rw [List.find?_cons_of_neg _ (by simpa using hne)]
        exact ih _ he
    · rw [collect_cons_not_mem x rest h hx] at he
      have hk : e.ListenOn ∈ h :=
        ((collect_keys rest _ e.ListenOn).mp (List.mem_map_of_mem _ he)).1
      have hne : x.ListenOn ≠ e.ListenOn := fun hc => hx (hc ▸ hk)
      rw [List.find?_cons_of_neg _ (by simpa using hne)]
      exact ih _ he

/-- The collecting loop of the source and the keyed scan agree as long as the key set of
the loop holds exactly the wanted keys that have not been seen. -/
theorem collect_eq_scan (keys : List GoString) (l : List emqxListener)
    (h seen : List GoString) (hinv : ∀ k, k ∈ h ↔ k ∈ keys ∧ k ∉ seen) :
    intersection.collect l h [] = keyedIntersection.scan keys seen l := by
  induction l generalizing h seen with
  | nil => rfl
  | cons e rest ih =>
    by_cases he : e.ListenOn ∈ h
    · have hk := (hinv e.ListenOn).mp he
      rw [collect_cons_mem e rest h he, keyedIntersection.scan, if_pos hk]
      congr 1
      apply ih
      intro k
      rw [mem_delete, hinv, List.mem_cons]
      constructor
      · rintro ⟨⟨h1, h2⟩, h3⟩
        exact ⟨h1, fun hc => hc.elim h3 h2⟩
      · rintro ⟨h1, h2⟩
        exact ⟨⟨h1, fun hc => h2 (Or.inr hc)⟩, fun hc => h2 (Or.inl hc)⟩
    · have hk : ¬ (e.ListenOn ∈ keys ∧ e.ListenOn ∉ seen) :=
        fun hc => he ((hinv _).mpr hc)
      rw [collect_cons_not_mem e rest h he, keyedIntersection.scan, if_neg hk]
      apply ih
      intro k
      rw [hinv, List.mem_cons]
      constructor
      · rintro ⟨h1, h2⟩
        refine ⟨h1, ?_⟩
        rintro (rfl | hc)
        · exact he ((hinv _).mpr ⟨h1, h2⟩)
        · exact h2 hc
      · rintro ⟨h1, h2⟩
        exact ⟨h1, fun hc => h2 (Or.inr hc)⟩

/-- The closure `intersection` of the source computes the keyed intersection. -/
theorem intersection_eq_keyed (l1 l2 : List emqxListener) :
    intersection l1 l2 = keyedIntersection l1 l2 := by
  unfold intersection keyedIntersection
  apply collect_eq_scan
  intro k
  rw [mem_insert_fold]
  simp

/-- Putting a list in front of two or more lists does not change the last two. -/
theorem lastTwo_cons (a : emqxListeners) (l : List emqxListeners) (h : 2 ≤ l.length) :
    lastTwoIntersection (a :: l) = lastTwoIntersection l := by
  unfold lastTwoIntersection
  have h1 : (a :: l).length - 2 = (l.length - 2) + 1 := by
    rw [List.length_cons]; omega
  have h2 : (a :: l).length - 1 = (l.length - 1) + 1 := by
    rw [List.length_cons]; omega
  rw [h1, h2, List.get?_cons_succ, List.get?_cons_succ]

/-- The last two of a sequence that ends with `previous` and `last`. -/
theorem lastTwo_append (front : List emqxListeners) (previous last : emqxListeners) :
    lastTwoIntersection (front ++ [previous, last]) =
      keyedIntersection previous.Listeners last.Listeners := by
  induction front with
  | nil => rfl
  | cons a front ih =>
    rw [List.cons_append, lastTwo_cons a _ (by simp), ih]

/-- With two or more lists left, the loop ends with the intersection of the last two. -/
theorem loop_eq_lastTwo (a b : emqxListeners) (rest : List emqxListeners)
    (acc : List emqxListener) :
    getListenerPortsByAPI.loop (a :: b :: rest) acc = lastTwoIntersection (a :: b :: rest) := by
  induction rest generalizing a b acc with
  | nil =>
    have hloop : getListenerPortsByAPI.loop [a, b] acc = intersection a.Listeners b.Listeners :=
      rfl
    rw [hloop, intersection_eq_keyed]
    rfl
  | cons c rest ih =>
    rw [getListenerPortsByAPI.loop, ih, lastTwo_cons a _ (by simp)]

/-- The migrate-to loop appends the node name of each pod in order. -/
theorem migrateTo_eq (c : Cluster) (inst : Emqx) (pods : List Pod) (acc : List GoString) :
    startEvacuateNodeByAPI.migrateTo c inst pods acc =
      acc ++ pods.map (c.getEmqxNodeName inst) := by
  induction pods generalizing acc with
  | nil => simp [startEvacuateNodeByAPI.migrateTo]
  | cons pod rest ih => simp [startEvacuateNodeByAPI.migrateTo, ih]

/-- The pod loop depends on the cluster through the container name and the HTTP client
only. -/
theorem scanPods_congr (c d : Cluster) (r : RequestAPIFields) (method path body : GoString)
    (hname : d.EmqxContainerName = c.EmqxContainerName) (hclient : d.RequestAPI = c.RequestAPI)
    (pods : List Pod) :
    requestAPI.scanPods d r method path body pods =
      requestAPI.scanPods c r method path body pods := by
  induction pods with
  | nil => rfl
  | cons pod rest ih => simp only [requestAPI.scanPods, hname, hclient, ih]

/-- The fast loop of `Atoi` fails on a text that has a unit other than a digit. -/
theorem Atoi_fast_none (s : GoString) (n : Nat) (hs : s.all isDigit = false) :
    Atoi.fast s n = none := by
  induction s generalizing n with
  | nil => simp at hs
  | cons c rest ih =>
    by_cases hc : isDigit c = true
    · have hrest : rest.all isDigit = false := by
        rw [List.all_cons, hc, Bool.true_and] at hs
        exact hs
      rw [Atoi.fast, if_pos hc]
      exact ih _ hrest
    · rw [Atoi.fast, if_neg hc]

/-- Reading further digits never lowers the value read so far. -/
theorem le_foldl_digits (s : GoString) (n : Nat) :
    n ≤ s.foldl (fun n ch => n * 10 + (ch.toNat - 48)) n := by
  induction s generalizing n with
  | nil => exact Nat.le_refl n
  | cons c rest ih =>
    rw [List.foldl_cons]
    exact Nat.le_trans (by omega) (ih _)

/-- The loop of `ParseUint` reports a syntax error, with value 0, on a text that has a unit
other than a digit, provided the digits before that unit stay within 64 bits. -/
theorem ParseUint_loop_syntax (s : GoString) (n : Nat) (hs : s.all isDigit = false)
    (hval : (s.takeWhile isDigit).foldl (fun n ch => n * 10 + (ch.toNat - 48)) n ≤ 2 ^ 64 - 1) :
    ParseUint.loop s n = (0, some .ErrSyntax) := by
  induction s generalizing n with
  | nil => simp at hs
  | cons c rest ih =>
    by_cases hc : isDigit c = true
    · have hrest : rest.all isDigit = false := by
        rw [List.all_cons, hc, Bool.true_and] at hs
        exact hs
      rw [List.takeWhile_cons, if_pos hc, List.foldl_cons] at hval
      have hstep := Nat.le_trans (le_foldl_digits (rest.takeWhile isDigit) _) hval
      have hmax : (2 : Nat) ^ 64 - 1 = 18446744073709551615 := by norm_num
      rw [hmax] at hstep
      have h1 : ¬ ((2 ^ 64 - 1) / 10 + 1 ≤ n) := by
        rw [hmax]
        omega
      have h2 : ¬ (2 ^ 64 - 1 < n * 10 + (c.toNat - 48)) := by
        rw [hmax]
        omega
      rw [ParseUint.loop, if_pos hc, if_neg h1, if_neg h2]
      exact ih _ hrest hval
    · rw [ParseUint.loop, if_neg hc]

/-- Both orders in which the sources test for a sign give the same text. -/
theorem unsignedPart_comm (s : GoString) :
    (if s.head? = some '+' ∨ s.head? = some '-' then s.drop 1 else s) = unsignedPart s := by
  unfold unsignedPart
  by_cases h : s.head? = some '-' ∨ s.head? = some '+'
  · rw [if_pos h, if_pos (Or.symm h)]
  · rw [if_neg h, if_neg (fun hc => h (Or.symm hc))]

/-- The function `Atoi` returns 0 on a text that is not a decimal integer, provided the digits
with which the text starts stay within 64 bits. -/
theorem Atoi_not_numeral (s : GoString) (hnum : isNumeral s = false)
    (hval : decValue (leadingDigits s) ≤ 2 ^ 64 - 1) : (Atoi s).1 = 0 := by
  have hbody : unsignedPart s ≠ [] → (unsignedPart s).all isDigit = false := by
    intro hne
    unfold isNumeral at hnum
    simpa [hne] using hnum
  unfold Atoi
  by_cases hfast : 0 < s.length ∧ s.length < 19
  · rw [if_pos hfast]
    change (if unsignedPart s = [] then ((0 : Int), some NumError.ErrSyntax) else
      match Atoi.fast (unsignedPart s) 0 with
      | none => (0, some .ErrSyntax)
      | some n => if s.head? = some '-' then (-(n : Int), none) else ((n : Int), none)).1 = 0
    by_cases hempty : unsignedPart s = []
    · rw [if_pos hempty]
    · rw [if_neg hempty, Atoi_fast_none _ 0 (hbody hempty)]
  · rw [if_neg hfast]
    unfold ParseInt
    by_cases hnil : s = []
    · rw [if_pos hnil]
    · rw [if_neg hnil, unsignedPart_comm]
      have hparse : ParseUint (unsignedPart s) = (0, some .ErrSyntax) := by
        unfold ParseUint
        by_cases hempty : unsignedPart s = []
        · rw [if_pos hempty]
        · rw [if_neg hempty]
          exact ParseUint_loop_syntax _ 0 (hbody hempty) hval
      rw [hparse]

/-- The conversion to `int32` keeps zero. -/
theorem toInt32_zero : toInt32 0 = 0 := by decide

/-- Removing the colon-and-digits groups leaves a subsequence of the text. -/
theorem stripColonDigits_go_sublist (skipping : Bool) (s : GoString) :
    (stripColonDigits.go skipping s).Sublist s := by
  induction s generalizing skipping with
  | nil => simp [stripColonDigits.go]
  | cons c rest ih =>
    rw [stripColonDigits.go]
    split
    · exact (ih true).cons c
    · split
      · exact (ih true).cons c
      · exact (ih false).cons₂ c

/-! ## The claims, continued -/

/-- C11, counterexample: on a pod group with no pod at all `requestAPI` returns
`ErrPodNotReady`, the very error it returns on a pod group whose pods are all unready; the
two outcomes are equal, so no distinct error kind tells the empty pod set apart. -/
theorem requestAPI_empty_pod_set_is_pod_not_ready :
    ¬ (requestAPI sampleClusterNoPods sampleFields sampleBroker "GET".toList
          "api/v4/plugins".toList [] ≠
        requestAPI sampleClusterUnready sampleFields sampleBroker "GET".toList
          "api/v4/plugins".toList []) ∧
      requestAPI sampleClusterNoPods sampleFields sampleBroker "GET".toList
          "api/v4/plugins".toList [] = .returned [] (.failure .ErrPodNotReady) := by
  decide

/-- C11, amended: when the selected (most recent) pod group resolves to an empty pod set,
`requestAPI` fails with `ErrPodNotReady`, the same error it returns when the set is not empty
but no pod is ready; no HTTP call is issued in either case. -/
theorem requestAPI_pod_not_ready_for_empty_and_unready (c : Cluster) (r : RequestAPIFields)
    (inst : Emqx) (method path body : GoString) (list : List StatefulSet) (sts : StatefulSet)
    (podMap : GoString → List Pod)
    (henum : requestAPI.enumerate c inst path = .ok list) (hlast : list.getLast? = some sts)
    (hpods : c.getPodMap inst [sts] = .ok podMap) :
    (podMap sts.UID = [] →
      requestAPI c r inst method path body = .returned [] (.failure .ErrPodNotReady)) ∧
    (podMap sts.UID ≠ [] → (∀ pod ∈ podMap sts.UID, podReady c.EmqxContainerName pod = false) →
      requestAPI c r inst method path body = .returned [] (.failure .ErrPodNotReady)) := by
  constructor
  · intro hempty
    unfold requestAPI
    simp [henum, hlast, hpods, hempty]
  · intro hne hunready
    have hlen : ¬ ((podMap sts.UID).length = 0) := fun h => hne (List.length_eq_zero.mp h)
    have hfirst : firstReadyPod c.EmqxContainerName (podMap sts.UID) = none := by
      unfold firstReadyPod
      rw [List.find?_eq_none]
      intro pod hpod
      simp [hunready pod hpod]
    unfold requestAPI
    simp only [henum, hlast, hpods, if_neg hlen]
    refine (scanPods_eq c r method path body (podMap sts.UID)).trans ?_
    rw [hfirst]

/-- Witness of C11 (amended) on the sample cluster whose newest pod group is empty. -/
theorem requestAPI_pod_not_ready_for_empty_and_unready_witness :
    requestAPI sampleClusterNoPods sampleFields sampleBroker "GET".toList
        "api/v4/plugins".toList [] = .returned [] (.failure .ErrPodNotReady) :=
  (requestAPI_pod_not_ready_for_empty_and_unready sampleClusterNoPods sampleFields sampleBroker
    "GET".toList "api/v4/plugins".toList [] [sampleOld, sampleNew] sampleNew (fun _ => [])
    rfl rfl rfl).1 rfl

/-- C12, counterexample: the port text `99999999999999999999x` is not numeric, yet the
entry derived from it has numeric port `-1` and target port `-1`, not 0: the digits overflow
64 bits before the `x` is read, and the clamped value is truncated to `int32`. -/
theorem servicePort_overflowing_text_is_not_zero :
    isNumeral "99999999999999999999x".toList = false ∧
      getListenerPortsByAPI.strPort ⟨"mqtt:tcp".toList, "99999999999999999999x".toList⟩ =
        "99999999999999999999x".toList ∧
      (getListenerPortsByAPI.servicePort
        ⟨"mqtt:tcp".toList, "99999999999999999999x".toList⟩).Port = -1 ∧
      (getListenerPortsByAPI.servicePort
        ⟨"mqtt:tcp".toList, "99999999999999999999x".toList⟩).TargetPort = .FromInt (-1) ∧
      ¬ ((getListenerPortsByAPI.servicePort
        ⟨"mqtt:tcp".toList, "99999999999999999999x".toList⟩).Port = 0) := by
  decide

/-- C12, amended: port derivation never aborts the listing. The output has exactly one
entry per surviving listener, in order; when host:port splitting of a bind with a colon fails,
the raw bind is the port text; and when the port text is not a decimal integer (an optional
sign followed by digits) the entry has numeric port 0 and target port 0, provided the digits
with which the text starts do not already exceed `2^64 - 1`. -/
theorem port_derivation_never_aborts (listeners : List emqxListener) (l : emqxListener) :
    (getListenerPortsByAPI.ports listeners [] =
        listeners.map getListenerPortsByAPI.servicePort ∧
      (getListenerPortsByAPI.ports listeners []).length = listeners.length) ∧
    (∀ (c : Cluster) (r : RequestAPIFields) (inst : Emqx) (calls : List HttpCall)
        (reply : HttpReply) (listenerList : List emqxListeners),
      requestAPI c r inst "GET".toList "api/v4/listeners".toList [] = .returned calls reply →
      reply.err = none → c.decodeListeners reply.body = .ok listenerList →
      getListenerPortsByAPI c r inst =
        .returned calls
          (.ok ((getListenerPortsByAPI.reconcile listenerList).map
            getListenerPortsByAPI.servicePort))) ∧
    (Contains l.ListenOn ":".toList = true → (∃ e, SplitHostPort l.ListenOn = .error e) →
      getListenerPortsByAPI.strPort l = l.ListenOn) ∧
    (isNumeral (getListenerPortsByAPI.strPort l) = false →
      decValue (leadingDigits (getListenerPortsByAPI.strPort l)) ≤ 2 ^ 64 - 1 →
      (getListenerPortsByAPI.servicePort l).Port = 0 ∧
        (getListenerPortsByAPI.servicePort l).TargetPort = .FromInt 0) := by
  have hports : ∀ ls : List emqxListener,
      getListenerPortsByAPI.ports ls [] = ls.map getListenerPortsByAPI.servicePort := by
    intro ls
    rw [ports_eq, List.nil_append]
  refine ⟨⟨hports listeners, by rw [hports, List.length_map]⟩, ?_, ?_, ?_⟩
  · intro c r inst calls reply listenerList hreply herr hdecode
    unfold getListenerPortsByAPI
    simp only [hreply, herr, hdecode, hports]
  · rintro hcolon ⟨e, he⟩
    unfold getListenerPortsByAPI.strPort
    rw [if_pos hcolon, he]
  · intro hnum hval
    have hzero := Atoi_not_numeral _ hnum hval
    constructor
    · simp only [getListenerPortsByAPI.servicePort, hzero, toInt32_zero]
    · simp only [getListenerPortsByAPI.servicePort, hzero, FromInt, toInt32_zero]

/-- Witness of C12 (amended): the bind `:::1883` cannot be split, so it is the port text,
and as it is not a decimal integer the port is 0. -/
theorem port_derivation_never_aborts_witness :
    getListenerPortsByAPI.strPort ⟨"mqtt:tcp".toList, ":::1883".toList⟩ = ":::1883".toList ∧
      (getListenerPortsByAPI.servicePort ⟨"mqtt:tcp".toList, ":::1883".toList⟩).Port = 0 ∧
      (getListenerPortsByAPI.servicePort ⟨"mqtt:tcp".toList, ":::1883".toList⟩).TargetPort =
        .FromInt 0 :=
  ⟨(port_derivation_never_aborts [] ⟨"mqtt:tcp".toList, ":::1883".toList⟩).2.2.1 (by decide)
      ⟨.tooManyColons, rfl⟩,
    (port_derivation_never_aborts [] ⟨"mqtt:tcp".toList, ":::1883".toList⟩).2.2.2 (by decide)
      (by decide)⟩

/-- C13: for every enterprise instance and every list of destination pods, the payload has
`conn_evict_rate` and `sess_evict_rate` equal to the configured rates and a `migrate_to` list
holding the broker node name of each pod, one per pod and in the pods' order; for no pod the
list is present and empty. The marshalled payload is the body of the one request made. -/
theorem evacuation_body_rates_and_destinations (c : Cluster) (r : RequestAPIFields)
    (obj : EmqxObject) (strategy : EvacuationStrategy) (migrateToPods : List Pod)
    (nodeName : GoString) :
    (startEvacuateNodeByAPI.body c (.EmqxEnterprise obj strategy) strategy migrateToPods).get
        "conn_evict_rate".toList = some (.number strategy.ConnEvictRate) ∧
    (startEvacuateNodeByAPI.body c (.EmqxEnterprise obj strategy) strategy migrateToPods).get
        "sess_evict_rate".toList = some (.number strategy.SessEvictRate) ∧
    (startEvacuateNodeByAPI.body c (.EmqxEnterprise obj strategy) strategy migrateToPods).get
        "migrate_to".toList =
      some (.strings (migrateToPods.map (c.getEmqxNodeName (.EmqxEnterprise obj strategy)))) ∧
    (startEvacuateNodeByAPI.body c (.EmqxEnterprise obj strategy) strategy []).get
        "migrate_to".toList = some (.strings []) ∧
    (migrateToPods.map (c.getEmqxNodeName (.EmqxEnterprise obj strategy))).length =
      migrateToPods.length ∧
    (∀ b, c.jsonMarshal
        (startEvacuateNodeByAPI.body c (.EmqxEnterprise obj strategy) strategy migrateToPods) =
          .ok b →
      (startEvacuateNodeByAPI c r (.EmqxEnterprise obj strategy) migrateToPods nodeName).calls =
        (requestAPI c r (.EmqxEnterprise obj strategy) "POST".toList
          ("api/v4/load_rebalance/".toList ++ nodeName ++ "/evacuation/start".toList) b).calls) := by
  have hm := migrateTo_eq c (.EmqxEnterprise obj strategy) migrateToPods []
  rw [List.nil_append] at hm
  refine ⟨?_, ?_, ?_, ?_, List.length_map _ _, ?_⟩
  · unfold startEvacuateNodeByAPI.body
    split <;> rfl
  · unfold startEvacuateNodeByAPI.body
    split <;> rfl
  · rw [← hm]
    unfold startEvacuateNodeByAPI.body
    split <;> rfl
  · unfold startEvacuateNodeByAPI.body
    split <;> rfl
  · intro b hb
    unfold startEvacuateNodeByAPI
    simp only [hb]
    cases requestAPI c r (.EmqxEnterprise obj strategy) "POST".toList
      ("api/v4/load_rebalance/".toList ++ nodeName ++ "/evacuation/start".toList) b <;> rfl

/-- Witness of C13 on the sample enterprise instance: the one request made is the request
that carries the marshalled payload. -/
theorem evacuation_body_rates_and_destinations_witness :
    (startEvacuateNodeByAPI sampleCluster sampleFields sampleEnterprise
        [samplePod "emqx-ee-85c9-1".toList true, samplePod "emqx-ee-85c9-2".toList true]
        "emqx@10.0.0.1".toList).calls =
      (requestAPI sampleCluster sampleFields sampleEnterprise "POST".toList
        ("api/v4/load_rebalance/".toList ++ "emqx@10.0.0.1".toList ++
          "/evacuation/start".toList) []).calls :=
  (evacuation_body_rates_and_destinations sampleCluster sampleFields
    ⟨"default".toList, "emqx-ee".toList, none⟩ ⟨30, 5, 10⟩
    [samplePod "emqx-ee-85c9-1".toList true, samplePod "emqx-ee-85c9-2".toList true]
    "emqx@10.0.0.1".toList).2.2.2.2.2 [] rfl

/-- C14: `requestAPI` takes its pod groups from the enumeration over the whole history
exactly when the path is `api/v4/nodes` and no node list has been observed, the result of the
in-cluster enumeration being then irrelevant; in every other case it takes them from the
in-cluster enumeration only. An error of the enumeration in use is returned at once, with no
pod looked up and no HTTP call. -/
theorem requestAPI_history_only_for_first_node_listing (c : Cluster) (r : RequestAPIFields)
    (inst : Emqx) (method path body : GoString) :
    (path = "api/v4/nodes".toList ∧ inst.GetEmqxNodes = none →
      requestAPI.enumerate c inst path = c.getAllStatefulSet inst ∧
      ∀ other, requestAPI { c with getInClusterStatefulSets := other } r inst method path body =
        requestAPI c r inst method path body) ∧
    (¬ (path = "api/v4/nodes".toList ∧ inst.GetEmqxNodes = none) →
      requestAPI.enumerate c inst path = c.getInClusterStatefulSets inst ∧
      ∀ other, requestAPI { c with getAllStatefulSet := other } r inst method path body =
        requestAPI c r inst method path body) ∧
    (∀ err, requestAPI.enumerate c inst path = .error err →
      requestAPI c r inst method path body = .returned [] (.failure err)) := by
  refine ⟨?_, ?_, ?_⟩
  · intro hcond
    refine ⟨by unfold requestAPI.enumerate; rw [if_pos hcond], ?_⟩
    intro other
    have hscan := fun pods =>
      scanPods_congr c { c with getInClusterStatefulSets := other } r method path body rfl rfl pods
    unfold requestAPI requestAPI.enumerate
    simp only [if_pos hcond, hscan]
  · intro hcond
    refine ⟨by unfold requestAPI.enumerate; rw [if_neg hcond], ?_⟩
    intro other
    have hscan := fun pods =>
      scanPods_congr c { c with getAllStatefulSet := other } r method path body rfl rfl pods
    unfold requestAPI requestAPI.enumerate
    simp only [if_neg hcond, hscan]
  · intro err herr
    unfold requestAPI
    simp only [herr]

/-- Witness of C14: on the first reconcile the node listing reaches the newest pod group of
the history, although only the outgoing group is tracked. -/
theorem requestAPI_history_only_for_first_node_listing_witness :
    requestAPI.enumerate sampleClusterHistory sampleEnterprise "api/v4/nodes".toList =
        sampleClusterHistory.getAllStatefulSet sampleEnterprise ∧
      ∀ other,
        requestAPI { sampleClusterHistory with getInClusterStatefulSets := other } sampleFields
            sampleEnterprise "GET".toList "api/v4/nodes".toList [] =
          requestAPI sampleClusterHistory sampleFields sampleEnterprise "GET".toList
            "api/v4/nodes".toList [] :=
  (requestAPI_history_only_for_first_node_listing sampleClusterHistory sampleFields
    sampleEnterprise "GET".toList "api/v4/nodes".toList []).1 ⟨rfl, rfl⟩

/-- C15: evaluation of the name derivation on the tag `mqtt:tcp` with the bind `:::1883`,
the IPv6 any-address with its port. Host-and-port splitting fails on the unbracketed colons,
the raw bind becomes the port text, and the derived name `mqtt-tcp-:::1883` contains colons:
it does not conform to the Kubernetes service port name rule, to which the comment in the
source says the name is made to conform. -/
theorem servicePort_name_keeps_colons_of_unsplittable_bind :
    SplitHostPort ":::1883".toList = .error .tooManyColons ∧
      getListenerPortsByAPI.strPort ⟨"mqtt:tcp".toList, ":::1883".toList⟩ = ":::1883".toList ∧
      (getListenerPortsByAPI.servicePort ⟨"mqtt:tcp".toList, ":::1883".toList⟩).Name =
        "mqtt-tcp-:::1883".toList ∧
      ':' ∈ (getListenerPortsByAPI.servicePort ⟨"mqtt:tcp".toList, ":::1883".toList⟩).Name ∧
      conformsPortName
        (getListenerPortsByAPI.servicePort ⟨"mqtt:tcp".toList, ":::1883".toList⟩).Name = false :=
  ⟨rfl, by decide, by decide, by decide, by decide⟩

/-- On the inputs that the comment in the source names, the derived name does conform: for
a protocol tag that starts with a lower-case alphanumeric, consists of lower-case
alphanumerics, hyphens and colons and has at most 57 units, and a bind that is a port number
`p` of at most 65535 or `host:p`, the name is a DNS-1123 label and contains no colon. -/
theorem servicePort_name_conforms_on_lower_case_tags (protocol bind : GoString) (p : Nat)
    (hfirst : ∃ c rest, protocol = c :: rest ∧ isLowerAlnum c = true)
    (htag : ∀ c ∈ protocol, isLabelChar c = true ∨ c = ':') (hlen : protocol.length ≤ 57)
    (hhigh : p ≤ 65535) (hbind : isPortOrHostPort bind p) :
    conformsPortName (getListenerPortsByAPI.servicePort ⟨protocol, bind⟩).Name = true ∧
      ':' ∉ (getListenerPortsByAPI.servicePort ⟨protocol, bind⟩).Name := by
  have hname : (getListenerPortsByAPI.servicePort ⟨protocol, bind⟩).Name =
      ReplaceAll (stripColonDigits protocol) ':' '-' ++ '-' :: decimal p := by
    simp only [getListenerPortsByAPI.servicePort, strPort_of_form protocol bind p hbind]
    simp
  have hsub : (stripColonDigits protocol).Sublist protocol :=
    stripColonDigits_go_sublist false protocol
  have hall : ∀ c ∈ (getListenerPortsByAPI.servicePort ⟨protocol, bind⟩).Name,
      isLabelChar c = true := by
    intro c hc
    rw [hname, List.mem_append, List.mem_cons] at hc
    rcases hc with hc | rfl | hc
    · unfold ReplaceAll at hc
      obtain ⟨x, hx, rfl⟩ := List.mem_map.mp hc
      by_cases hcolon : x = ':'
      · rw [if_pos hcolon]
        rfl
      · rw [if_neg hcolon]
        rcases htag x (hsub.subset hx) with h | h
        · exact h
        · exact absurd h hcolon
    · rfl
    · have := decimal_all_digits p c hc
      simp [isLabelChar, this]
  have hlength : (getListenerPortsByAPI.servicePort ⟨protocol, bind⟩).Name.length ≤ 63 := by
    rw [hname, List.length_append, List.length_cons]
    have h1 : (ReplaceAll (stripColonDigits protocol) ':' '-').length ≤ protocol.length := by
      unfold ReplaceAll
      rw [List.length_map]
      exact hsub.length_le
    have h2 := decimal_length p hhigh
    omega
  have hhead : ((getListenerPortsByAPI.servicePort ⟨protocol, bind⟩).Name.head?.map
      isLowerAlnum).getD false = true := by
    obtain ⟨c, rest, hprot, hc⟩ := hfirst
    have hcolon : ¬ c = ':' := by
      intro h
      rw [h] at hc
      exact absurd hc (by decide)
    have hstrip : stripColonDigits (c :: rest) = c :: stripColonDigits.go false rest := by
      unfold stripColonDigits
      rw [stripColonDigits.go]
      simp [hcolon]
    rw [hname, hprot, hstrip]
    simp [ReplaceAll, hcolon, hc]
  have hlast : ((getListenerPortsByAPI.servicePort ⟨protocol, bind⟩).Name.getLast?.map
      isLowerAlnum).getD false = true := by
    have hne := decimal_ne_nil p
    have hmem := List.getLast_mem hne
    have hdigit := decimal_all_digits p _ hmem
    have hsplit : ReplaceAll (stripColonDigits protocol) ':' '-' ++ '-' :: decimal p =
        (ReplaceAll (stripColonDigits protocol) ':' '-' ++ '-' :: (decimal p).dropLast) ++
          [(decimal p).getLast hne] := by
      conv_lhs => rw [← List.dropLast_append_getLast hne]
      simp
    rw [hname, hsplit, List.getLast?_concat]
    simp [isLowerAlnum, hdigit]
  constructor
  · unfold conformsPortName
    rw [Bool.and_eq_true, Bool.and_eq_true, Bool.and_eq_true, List.all_eq_true]
    exact ⟨⟨⟨hall, by simpa using hlength⟩, hhead⟩, hlast⟩
  · intro hc
    have := hall ':' hc
    exact absurd this (by decide)

/-- An instance of the previous statement: tag `mqtt:wss:8084` on bind `0.0.0.0:8084`. -/
theorem servicePort_name_conforms_at_wss :
    conformsPortName
        (getListenerPortsByAPI.servicePort ⟨"mqtt:wss:8084".toList, "0.0.0.0:8084".toList⟩).Name =
        true ∧
      ':' ∉ (getListenerPortsByAPI.servicePort
        ⟨"mqtt:wss:8084".toList, "0.0.0.0:8084".toList⟩).Name :=
  servicePort_name_conforms_on_lower_case_tags "mqtt:wss:8084".toList "0.0.0.0:8084".toList 8084
    ⟨'m', "qtt:wss:8084".toList, by decide, by decide⟩
    (by decide) (by decide) (by decide)
    (Or.inr (Or.inl ⟨"0.0.0.0".toList, by decide, by decide, by decide,
      by simp [decimal, digitChar]⟩))

/-- C16: for two or more per-node listener lists, the reconciled listeners are the
intersection, keyed by bind address, of the last two lists only (list `n-2` and list `n-1`),
whatever the earlier lists hold: the entries of the last list whose bind key occurs in the
list before it, each key once. With no reporting node the reconciled list and the returned
port list are empty and no error is returned. -/
theorem reconcile_is_intersection_of_last_two (listenerList : List emqxListeners)
    (hmany : 2 ≤ listenerList.length) :
    getListenerPortsByAPI.reconcile listenerList = lastTwoIntersection listenerList ∧
    (∀ front previous last, listenerList = front ++ [previous, last] →
      getListenerPortsByAPI.reconcile listenerList =
        keyedIntersection previous.Listeners last.Listeners) ∧
    getListenerPortsByAPI.reconcile [] = [] ∧
    (∀ (c : Cluster) (r : RequestAPIFields) (inst : Emqx) (calls : List HttpCall)
        (reply : HttpReply),
      requestAPI c r inst "GET".toList "api/v4/listeners".toList [] = .returned calls reply →
      reply.err = none → c.decodeListeners reply.body = .ok [] →
      getListenerPortsByAPI c r inst = .returned calls (.ok [])) := by
  have hmain : getListenerPortsByAPI.reconcile listenerList =
      lastTwoIntersection listenerList := by
    match listenerList, hmany with
    | a :: b :: rest, _ =>
      have hrec : getListenerPortsByAPI.reconcile (a :: b :: rest) =
          getListenerPortsByAPI.loop (a :: b :: rest) [] := rfl
      rw [hrec]
      exact loop_eq_lastTwo a b rest []
  refine ⟨hmain, ?_, rfl, ?_⟩
  · intro front previous last hlist
    rw [hmain, hlist]
    exact lastTwo_append front previous last
  · intro c r inst calls reply hreply herr hdecode
    unfold getListenerPortsByAPI
    simp only [hreply, herr, hdecode]
    rfl

/-- Witness of C16 on the three lists `[[A,B],[B,C],[C]]`: the keyed intersection of the
last two lists `[B,C]` and `[C]` is `[C]`, and that is the reconciled list, although `C` is
absent from the first list. -/
theorem reconcile_is_intersection_of_last_two_witness :
    2 ≤ [(⟨"n1".toList, [listenerA, listenerB]⟩ : emqxListeners),
          ⟨"n2".toList, [listenerB, listenerC]⟩, ⟨"n3".toList, [listenerC]⟩].length ∧
      lastTwoIntersection
          [⟨"n1".toList, [listenerA, listenerB]⟩, ⟨"n2".toList, [listenerB, listenerC]⟩,
           ⟨"n3".toList, [listenerC]⟩] = [listenerC] ∧
      getListenerPortsByAPI.reconcile
          [⟨"n1".toList, [listenerA, listenerB]⟩, ⟨"n2".toList, [listenerB, listenerC]⟩,
           ⟨"n3".toList, [listenerC]⟩] = [listenerC] :=
  ⟨by decide, by decide,
    (reconcile_is_intersection_of_last_two
      [⟨"n1".toList, [listenerA, listenerB]⟩, ⟨"n2".toList, [listenerB, listenerC]⟩,
       ⟨"n3".toList, [listenerC]⟩] (by decide)).1.trans (by decide)⟩

/-- C17: for any two listener lists, `intersection l1 l2` is a subsequence of `l2`, its bind
keys are pairwise distinct, a bind key occurs in it exactly when it occurs both in `l1` and
in `l2`, and each of its entries is the first entry of `l2` with that bind key. -/
theorem intersection_first_occurrences_of_common_keys (l1 l2 : List emqxListener) :
    (intersection l1 l2).Sublist l2 ∧
      ((intersection l1 l2).map (fun e => e.ListenOn)).Nodup ∧
      (∀ k, k ∈ (intersection l1 l2).map (fun e => e.ListenOn) ↔
        k ∈ l1.map (fun e => e.ListenOn) ∧ k ∈ l2.map (fun e => e.ListenOn)) ∧
      (∀ e ∈ intersection l1 l2, l2.find? (fun x => x.ListenOn = e.ListenOn) = some e) := by
  refine ⟨collect_sublist l2 _, collect_nodup l2 _, ?_, fun e he => collect_first l2 _ e he⟩
  intro k
  unfold intersection
  rw [collect_keys, mem_insert_fold]
  simp

/-- C18: evaluation of `requestAPI` when the enumeration returns the empty list and no
error: selecting `list[len(list)-1]` is out of range, and the call ends in a run-time panic
instead of returning an error or the result of an HTTP call. -/
theorem requestAPI_panics_on_empty_enumeration :
    requestAPI.enumerate sampleClusterNoGroups sampleBroker "api/v4/plugins".toList = .ok [] ∧
      requestAPI sampleClusterNoGroups sampleFields sampleBroker "GET".toList
        "api/v4/plugins".toList [] = .panicked [] ∧
      ∀ reply calls,
        requestAPI sampleClusterNoGroups sampleFields sampleBroker "GET".toList
          "api/v4/plugins".toList [] ≠ .returned calls reply := by
  refine ⟨rfl, rfl, ?_⟩
  intro reply calls h
  have hp : requestAPI sampleClusterNoGroups sampleFields sampleBroker "GET".toList
      "api/v4/plugins".toList [] = .panicked [] := rfl
  rw [hp] at h
  exact Outcome.noConfusion h

end EmqxOperator
